import Mathlib

/-!
Verification of the 2D platformer simulation core: geometric primitives,
the AABB quadtree broad phase, the collision resolver, and the boid
flocking pipeline.  Scalars of the collision/quadtree code are modelled
as rationals; the boid pipeline, which needs vector lengths, is modelled
over the reals.
-/

namespace Platformer

/-- A 2D vector with rational components (model of Vec2 for physics/quadtree). -/
structure V2 where
  x : ℚ
  y : ℚ
  deriving DecidableEq, Repr

/-- Axis-aligned bounding box: a half-size extent vector; the position is
carried externally. -/
structure AABB where
  halfsize : V2
  deriving DecidableEq, Repr

/-- Exact AABB overlap test, from physics.rs (collides): all four strict
half-plane conditions. -/
def collides (a_aabb : AABB) (a_pos : V2) (b_aabb : AABB) (b_pos : V2) : Prop :=
  (a_pos.x - a_aabb.halfsize.x) < (b_pos.x + b_aabb.halfsize.x)
    ∧ (a_pos.x + a_aabb.halfsize.x) > (b_pos.x - b_aabb.halfsize.x)
    ∧ (a_pos.y + a_aabb.halfsize.y) > (b_pos.y - b_aabb.halfsize.y)
    ∧ (a_pos.y - a_aabb.halfsize.y) < (b_pos.y + b_aabb.halfsize.y)

instance (a_aabb : AABB) (a_pos : V2) (b_aabb : AABB) (b_pos : V2) :
    Decidable (collides a_aabb a_pos b_aabb b_pos) :=
  inferInstanceAs (Decidable (_ ∧ _ ∧ _ ∧ _))

/-- Strict containment test, from physics.rs (AABB::contains). -/
def contains (self : AABB) (self_pos : V2) (other : AABB) (other_pos : V2) : Prop :=
  self_pos.x - self.halfsize.x < other_pos.x - other.halfsize.x
    ∧ self_pos.x + self.halfsize.x > other_pos.x + other.halfsize.x
    ∧ self_pos.y - self.halfsize.y < other_pos.y - other.halfsize.y
    ∧ self_pos.y + self.halfsize.y > other_pos.y + other.halfsize.y

instance (self : AABB) (self_pos : V2) (other : AABB) (other_pos : V2) :
    Decidable (contains self self_pos other other_pos) :=
  inferInstanceAs (Decidable (_ ∧ _ ∧ _ ∧ _))

/-- Narrow phase, from physics.rs (penetration_depth): exact overlap test,
then a nearer-edge signed penetration per axis. -/
def penetration_depth (a_aabb : AABB) (a_pos : V2) (b_aabb : AABB) (b_pos : V2) :
    Option V2 :=
  if collides a_aabb a_pos b_aabb b_pos then
    let x := if a_pos.x > b_pos.x then
        (b_pos.x + b_aabb.halfsize.x) - (a_pos.x - a_aabb.halfsize.x)
      else
        (b_pos.x - b_aabb.halfsize.x) - (a_pos.x + a_aabb.halfsize.x)
    let y := if a_pos.y > b_pos.y then
        (b_pos.y + b_aabb.halfsize.y) - (a_pos.y - a_aabb.halfsize.y)
      else
        (b_pos.y - b_aabb.halfsize.y) - (a_pos.y + a_aabb.halfsize.y)
    some ⟨x, y⟩
  else
    none

/-- The four child (boundary, center) pairs created by quadtree subdivision,
in NW, NE, SW, SE order, from quadtree.rs (subdivide, identical in
AabbQuadtree and PointQuadtree). -/
def subdivideChildren (boundary : AABB) (center : V2) : List (AABB × V2) :=
  let half_boundary : V2 := ⟨boundary.halfsize.x / 2, boundary.halfsize.y / 2⟩
  let halfsize : V2 := ⟨half_boundary.x, half_boundary.y⟩
  [ (⟨halfsize⟩, ⟨center.x - half_boundary.x, center.y + half_boundary.y⟩),
    (⟨halfsize⟩, ⟨center.x + half_boundary.x, center.y + half_boundary.y⟩),
    (⟨halfsize⟩, ⟨center.x - half_boundary.x, center.y - half_boundary.y⟩),
    (⟨halfsize⟩, ⟨center.x + half_boundary.x, center.y - half_boundary.y⟩) ]

/-- The closed region of the plane covered by a boundary box placed at a
center: center plus or minus the half-size on each axis. -/
def region (b : AABB) (c : V2) : Set (ℚ × ℚ) :=
  {p | c.x - b.halfsize.x ≤ p.1 ∧ p.1 ≤ c.x + b.halfsize.x
      ∧ c.y - b.halfsize.y ≤ p.2 ∧ p.2 ≤ c.y + b.halfsize.y}

/-- The open interior of the region covered by a boundary box at a center. -/
def interiorRegion (b : AABB) (c : V2) : Set (ℚ × ℚ) :=
  {p | c.x - b.halfsize.x < p.1 ∧ p.1 < c.x + b.halfsize.x
      ∧ c.y - b.halfsize.y < p.2 ∧ p.2 < c.y + b.halfsize.y}

/-! ## The AABB quadtree

The tree is modelled as an inductive type: a node of quadtree.rs with
divided = false and no children is a leaf; a node with divided = true and
four children is an internal node (its objects list is empty after
redistribution and never repopulated, so it is not carried).  Because
insertion does not terminate on degenerate inputs (see the C4 theorems),
the recursive operations take a fuel argument and return none when the
fuel runs out. -/
/-- An entry of the AABB quadtree: entity id, box, position. -/
structure Obj where
  id : ℕ
  box : AABB
  pos : V2
  deriving DecidableEq, Repr

/-- Quadtree over boxes: a leaf (divided = false) or an internal node
with children in NW, NE, SW, SE order. -/
inductive QT where
  | leaf (b : AABB) (c : V2) (cap : ℕ) (objs : List Obj)
  | node (b : AABB) (c : V2) (cap : ℕ) (nw ne sw se : QT)
  deriving DecidableEq, Repr

/-- Half of a boundary half-size, as computed by subdivide. -/
def childHalfsize (b : AABB) : V2 := ⟨b.halfsize.x / 2, b.halfsize.y / 2⟩

/-- The divided node created by subdivide: four fresh empty leaves with
half the half-size, centered at the NW, NE, SW, SE offsets. -/
def mkNode (b : AABB) (c : V2) (cap : ℕ) : QT :=
  let hb := childHalfsize b
  QT.node b c cap
    (QT.leaf ⟨hb⟩ ⟨c.x - hb.x, c.y + hb.y⟩ cap [])
    (QT.leaf ⟨hb⟩ ⟨c.x + hb.x, c.y + hb.y⟩ cap [])
    (QT.leaf ⟨hb⟩ ⟨c.x - hb.x, c.y - hb.y⟩ cap [])
    (QT.leaf ⟨hb⟩ ⟨c.x + hb.x, c.y - hb.y⟩ cap [])

mutual

/-- Fueled AabbQuadtree::insert: reject non-overlapping entries, append at
a leaf with capacity, otherwise subdivide (redistributing the stored
entries) and offer the entry to every child. -/
def insertF : ℕ → QT → Obj → Option (QT × Bool)
  | 0, _, _ => none
  | n+1, QT.leaf b c cap objs, e =>
    if collides b c e.box e.pos then
      if objs.length < cap then some (QT.leaf b c cap (objs ++ [e]), true)
      else
        match redistF n (mkNode b c cap) objs with
        | none => none
        | some t1 => insert4F n t1 e
    else some (QT.leaf b c cap objs, false)
  | n+1, QT.node b c cap nw ne sw se, e =>
    if collides b c e.box e.pos then insert4F n (QT.node b c cap nw ne sw se) e
    else some (QT.node b c cap nw ne sw se, false)
termination_by n t e => (n, 0, 0)

/-- The child loop of insert on a divided node: offer the entry to each of
the four children in order, or-ing the results. -/
def insert4F : ℕ → QT → Obj → Option (QT × Bool)
  | _, QT.leaf b c cap objs, _ => some (QT.leaf b c cap objs, false)
  | n, QT.node b c cap nw ne sw se, e =>
    match insertF n nw e with
    | none => none
    | some (nw1, r1) =>
      match insertF n ne e with
      | none => none
      | some (ne1, r2) =>
        match insertF n sw e with
        | none => none
        | some (sw1, r3) =>
          match insertF n se e with
          | none => none
          | some (se1, r4) => some (QT.node b c cap nw1 ne1 sw1 se1, (r1 || r2 || r3 || r4))
termination_by n t e => (n, 1, 0)

/-- Redistribution of the stored entries of a subdividing leaf: re-insert
each of them into the freshly divided node. -/
def redistF : ℕ → QT → List Obj → Option QT
  | _, t, [] => some t
  | n, t, e :: es =>
    match insertF n t e with
    | none => none
    | some (t1, _) => redistF n t1 es
termination_by n t es => (n, 2, es.length)

end

/-- AabbQuadtree::query: skip subtrees whose boundary does not overlap the
range; at an overlapping leaf append every stored id without re-testing. -/
def queryF : QT → AABB → V2 → List ℕ → List ℕ
  | QT.leaf b c _ objs, range, pos, found =>
    if collides b c range pos then found ++ objs.map Obj.id else found
  | QT.node b c _ nw ne sw se, range, pos, found =>
    if collides b c range pos then
      queryF se range pos (queryF sw range pos (queryF ne range pos (queryF nw range pos found)))
    else found

/-- Insert a list of entries in order, collecting the returned flags. -/
def buildF (n : ℕ) : QT → List Obj → Option (QT × List Bool)
  | t, [] => some (t, [])
  | t, e :: es =>
    match insertF n t e with
    | none => none
    | some (t1, r) =>
      match buildF n t1 es with
      | none => none
      | some (t2, rs) => some (t2, r :: rs)

/-- All leaves of the tree: boundary, center and stored entries. -/
def leavesL : QT → List (AABB × V2 × List Obj)
  | QT.leaf b c _ objs => [(b, c, objs)]
  | QT.node _ _ _ nw ne sw se => leavesL nw ++ leavesL ne ++ leavesL sw ++ leavesL se

/-- All entries reachable by walking every leaf, in leaf order. -/
def storedObjs : QT → List Obj
  | QT.leaf _ _ _ objs => objs
  | QT.node _ _ _ nw ne sw se => storedObjs nw ++ storedObjs ne ++ storedObjs sw ++ storedObjs se

/-- The ids reachable by walking every leaf, in leaf order. -/
def storedIds (t : QT) : List ℕ := (storedObjs t).map Obj.id

/-- Boundary box of the root of a tree. -/
def bnd : QT → AABB
  | QT.leaf b _ _ _ => b
  | QT.node b _ _ _ _ _ _ => b

/-- Center of the root of a tree. -/
def ctr : QT → V2
  | QT.leaf _ c _ _ => c
  | QT.node _ c _ _ _ _ _ => c

/-- Capacity of the root of a tree. -/
def capQ : QT → ℕ
  | QT.leaf _ _ cap _ => cap
  | QT.node _ _ cap _ _ _ _ => cap

/-! ## C4: unbounded subdivision on co-located entries

The degenerate input of the claim: a capacity-2 tree and three entries
with identical boxes at identical positions.  The third insert subdivides
forever along the child whose corner touches the common position: the
fueled model returns none for every amount of fuel. -/
/-- A co-located degenerate entry: box of half-size (10,10) at the origin. -/
def c4E (i : ℕ) : Obj := ⟨i, ⟨⟨10, 10⟩⟩, ⟨0, 0⟩⟩

/-- The self-similar full leaf of the divergence: a square region of
half-size s whose south-east corner is the origin, already holding two
co-located entries. -/
def famLeaf (s : ℚ) : QT := QT.leaf ⟨⟨s, s⟩⟩ ⟨-s, s⟩ 2 [c4E 0, c4E 1]

/-- The degenerate root: a capacity-2 leaf with half-size (50,50) at the
origin, before any insertion. -/
def c4Root : QT := QT.leaf ⟨⟨50, 50⟩⟩ ⟨0, 0⟩ 2 []

/-! ## Structural invariants of built trees -/
/-- The geometry invariant: every internal node's children have half the
parent's half-size and are centered at the NW, NE, SW, SE offsets. -/
def Tiled : QT → Prop
  | QT.leaf _ _ _ _ => True
  | QT.node b c _ nw ne sw se =>
      (bnd nw = ⟨childHalfsize b⟩
          ∧ ctr nw = ⟨c.x - (childHalfsize b).x, c.y + (childHalfsize b).y⟩)
        ∧ (bnd ne = ⟨childHalfsize b⟩
          ∧ ctr ne = ⟨c.x + (childHalfsize b).x, c.y + (childHalfsize b).y⟩)
        ∧ (bnd sw = ⟨childHalfsize b⟩
          ∧ ctr sw = ⟨c.x - (childHalfsize b).x, c.y - (childHalfsize b).y⟩)
        ∧ (bnd se = ⟨childHalfsize b⟩
          ∧ ctr se = ⟨c.x + (childHalfsize b).x, c.y - (childHalfsize b).y⟩)
        ∧ Tiled nw ∧ Tiled ne ∧ Tiled sw ∧ Tiled se

/-- The root boundary has nonnegative half-sizes. -/
def NonnegB (t : QT) : Prop := 0 ≤ (bnd t).halfsize.x ∧ 0 ≤ (bnd t).halfsize.y

/-- An entry is stored at every leaf whose boundary overlaps it. -/
def StoredE (t : QT) (e : Obj) : Prop :=
  ∀ L ∈ leavesL t, collides L.1 L.2.1 e.box e.pos → e ∈ L.2.2

/-- The tree's root is an internal node. -/
def IsNode : QT → Prop
  | QT.leaf _ _ _ _ => False
  | QT.node _ _ _ _ _ _ _ => True

/-- The boundary region at (b, c) and the two boxes A and B share a common
open point on each axis. -/
def triColl (b : AABB) (c : V2) (A : AABB) (ap : V2) (B : AABB) (bp : V2) : Prop :=
  max (max (ap.x - A.halfsize.x) (bp.x - B.halfsize.x)) (c.x - b.halfsize.x)
      < min (min (ap.x + A.halfsize.x) (bp.x + B.halfsize.x)) (c.x + b.halfsize.x)
    ∧ max (max (ap.y - A.halfsize.y) (bp.y - B.halfsize.y)) (c.y - b.halfsize.y)
      < min (min (ap.y + A.halfsize.y) (bp.y + B.halfsize.y)) (c.y + b.halfsize.y)

/-- Everything insert guarantees at fuel n: it keeps the root's boundary,
center and capacity, keeps the tiling, reports the entry stored at every
overlapping leaf, preserves earlier such reports, adds at most the new
entry, leaves the tree alone on a non-overlapping entry, and returns true
on an overlapping entry with positive half-sizes. -/
def InsP (n : ℕ) : Prop :=
  ∀ (t : QT) (e : Obj) (t1 : QT) (r : Bool), insertF n t e = some (t1, r) →
    Tiled t → NonnegB t →
    bnd t1 = bnd t ∧ ctr t1 = ctr t ∧ capQ t1 = capQ t ∧ Tiled t1
      ∧ (IsNode t → IsNode t1)
      ∧ StoredE t1 e
      ∧ (∀ f, StoredE t f → StoredE t1 f)
      ∧ (∀ x ∈ storedObjs t1, x ∈ storedObjs t ∨ x = e)
      ∧ (¬ collides (bnd t) (ctr t) e.box e.pos → t1 = t ∧ r = false)
      ∧ (0 < e.box.halfsize.x → 0 < e.box.halfsize.y →
          0 < (bnd t).halfsize.x → 0 < (bnd t).halfsize.y →
          collides (bnd t) (ctr t) e.box e.pos → r = true)

/-- The child-loop analogue of InsP on an internal node. -/
def Ins4P (n : ℕ) : Prop :=
  ∀ (t : QT) (e : Obj) (t1 : QT) (r : Bool), insert4F n t e = some (t1, r) →
    IsNode t → Tiled t → NonnegB t →
    bnd t1 = bnd t ∧ ctr t1 = ctr t ∧ capQ t1 = capQ t ∧ Tiled t1 ∧ IsNode t1
      ∧ StoredE t1 e
      ∧ (∀ f, StoredE t f → StoredE t1 f)
      ∧ (∀ x ∈ storedObjs t1, x ∈ storedObjs t ∨ x = e)
      ∧ (0 < e.box.halfsize.x → 0 < e.box.halfsize.y →
          0 < (bnd t).halfsize.x → 0 < (bnd t).halfsize.y →
          collides (bnd t) (ctr t) e.box e.pos → r = true)

/-- The redistribution analogue: re-inserting a list of entries keeps the
shape, preserves stored-everywhere reports, achieves them for each
redistributed entry, and adds no other entries. -/
def RedP (n : ℕ) : Prop :=
  ∀ (es : List Obj) (t t1 : QT), redistF n t es = some t1 → Tiled t → NonnegB t →
    bnd t1 = bnd t ∧ ctr t1 = ctr t ∧ capQ t1 = capQ t ∧ Tiled t1
      ∧ (IsNode t → IsNode t1)
      ∧ (∀ f, StoredE t f → StoredE t1 f)
      ∧ (∀ e ∈ es, StoredE t1 e)
      ∧ (∀ x ∈ storedObjs t1, x ∈ storedObjs t ∨ x ∈ es)

/-! ## Counterexample runs for the quadtree claims -/
/-- C1 counterexample root boundary. -/
def cexRootB : AABB := ⟨⟨100, 100⟩⟩

/-- C1 counterexample root center. -/
def cexRootC : V2 := ⟨0, 0⟩

/-- C1 counterexample entry A: a box with zero half-size on the X axis,
sitting exactly on the subdivision line. -/
def cexA : Obj := ⟨0, ⟨⟨0, 10⟩⟩, ⟨0, 0⟩⟩

/-- C1 counterexample entry B: a large box straddling all four children. -/
def cexB : Obj := ⟨1, ⟨⟨50, 50⟩⟩, ⟨0, 0⟩⟩

/-- The tree produced by the C1 counterexample build: entry A is dropped
during redistribution (it overlaps no child), entry B is stored in all
four leaves. -/
def c1Tree : QT :=
  QT.node cexRootB cexRootC 1
    (QT.leaf ⟨⟨50, 50⟩⟩ ⟨-50, 50⟩ 1 [cexB])
    (QT.leaf ⟨⟨50, 50⟩⟩ ⟨50, 50⟩ 1 [cexB])
    (QT.leaf ⟨⟨50, 50⟩⟩ ⟨-50, -50⟩ 1 [cexB])
    (QT.leaf ⟨⟨50, 50⟩⟩ ⟨50, -50⟩ 1 [cexB])

/-- C3 counterexample entries: a straddling box and two corner boxes. -/
def c3A : Obj := ⟨0, ⟨⟨50, 50⟩⟩, ⟨0, 0⟩⟩

/-- C3 counterexample entry landing only in the NE child. -/
def c3B : Obj := ⟨1, ⟨⟨10, 10⟩⟩, ⟨60, 60⟩⟩

/-- C3 counterexample entry landing only in the SW child. -/
def c3C : Obj := ⟨2, ⟨⟨10, 10⟩⟩, ⟨-60, -60⟩⟩

/-- The tree produced by the C3 counterexample build: the straddling entry
is stored in all four leaves, the corner entries once each. -/
def c3Tree : QT :=
  QT.node cexRootB cexRootC 2
    (QT.leaf ⟨⟨50, 50⟩⟩ ⟨-50, 50⟩ 2 [c3A])
    (QT.leaf ⟨⟨50, 50⟩⟩ ⟨50, 50⟩ 2 [c3A, c3B])
    (QT.leaf ⟨⟨50, 50⟩⟩ ⟨-50, -50⟩ 2 [c3A, c3C])
    (QT.leaf ⟨⟨50, 50⟩⟩ ⟨50, -50⟩ 2 [c3A])

/-- Witness entry for the amended quadtree theorems: a (10,10) box at the
origin. -/
def wTreeA : Obj := ⟨0, ⟨⟨10, 10⟩⟩, ⟨0, 0⟩⟩

/-- Witness entry for the amended quadtree theorems: a (10,10) box at
(5,0), overlapping the first. -/
def wTreeB : Obj := ⟨1, ⟨⟨10, 10⟩⟩, ⟨5, 0⟩⟩

/-- The tree built from the two witness entries: both fit in the root leaf
of capacity 2. -/
def wTree : QT := QT.leaf ⟨⟨100, 100⟩⟩ ⟨0, 0⟩ 2 [wTreeA, wTreeB]

/-! ## The collision resolver

The Bevy system collisions of physics.rs: clear every body's contact
flags, then resolve each unordered pair (in iteration order, reading the
positions left by earlier pair resolutions) with mass-weighted
separation on the axis of smaller absolute penetration. -/
/-- Contact-state flags of a moving body. -/
structure MovingObjectState where
  right : Bool
  left : Bool
  ground : Bool
  ceiling : Bool
  deriving DecidableEq, Repr

/-- A moving body: mass (0 = static), current position/velocity/state and
the previous tick's shadow copies. -/
structure MovingObject where
  mass : ℚ
  position : V2
  velocity : V2
  state : MovingObjectState
  old_position : V2
  old_velocity : V2
  old_state : MovingObjectState
  deriving DecidableEq, Repr

/-- A body as the resolver sees it: its collision box and its MovingObject. -/
abbrev Body := AABB × MovingObject

/-- The flag-clearing prologue of the collisions system. -/
def clearState (m : MovingObject) : MovingObject :=
  { m with state := ⟨false, false, false, false⟩ }

/-- Resolution of one candidate pair, from physics.rs (collisions): skip
two static bodies, narrow-phase test, then mass-weighted separation on
the axis of smaller absolute penetration and contact-flag setting by
penetration sign. -/
def pairStep (a b : Body) : Body × Body :=
  if a.2.mass = 0 ∧ b.2.mass = 0 then (a, b)
  else
    match penetration_depth a.1 a.2.position b.1 b.2.position with
    | none => (a, b)
    | some p =>
      let total_mass := a.2.mass + b.2.mass
      let a_ratio := a.2.mass / total_mass
      let b_ratio := b.2.mass / total_mass
      if |p.x| < |p.y| then
        let a2 := { a.2 with position := ⟨a.2.position.x + p.x * a_ratio, a.2.position.y⟩ }
        let b2 := { b.2 with position := ⟨b.2.position.x - p.x * b_ratio, b.2.position.y⟩ }
        if p.x ≥ 0 then
          ((a.1, { a2 with state := { a2.state with left := true } }),
            (b.1, { b2 with state := { b2.state with right := true } }))
        else
          ((a.1, { a2 with state := { a2.state with right := true } }),
            (b.1, { b2 with state := { b2.state with left := true } }))
      else
        let a2 := { a.2 with position := ⟨a.2.position.x, a.2.position.y + p.y * a_ratio⟩ }
        let b2 := { b.2 with position := ⟨b.2.position.x, b.2.position.y - p.y * b_ratio⟩ }
        if p.y ≥ 0 then
          ((a.1, { a2 with state := { a2.state with ground := true } }),
            (b.1, { b2 with state := { b2.state with ceiling := true } }))
        else
          ((a.1, { a2 with state := { a2.state with ceiling := true } }),
            (b.1, { b2 with state := { b2.state with ground := true } }))

/-- Resolve one body against every later body in order, threading the
mutations, as iter_combinations does for a fixed first element. -/
def resolveAgainst (a : Body) : List Body → Body × List Body
  | [] => (a, [])
  | b :: bs =>
    let ab := pairStep a b
    let rest := resolveAgainst ab.1 bs
    (rest.1, ab.2 :: rest.2)

/-- The pair loop of the collisions system over all combinations of two. -/
def pairsLoop : List Body → List Body
  | [] => []
  | a :: rest =>
    let r := resolveAgainst a rest
    r.1 :: pairsLoop r.2
termination_by l => l.length
decreasing_by
  have hlen : ∀ (bs : List Body) (a : Body), (resolveAgainst a bs).2.length = bs.length := by
    intro bs
    induction bs with
    | nil => intro a; rfl
    | cons b bs ih => intro a; simp [resolveAgainst, ih]
  simp [hlen]

/-- The whole collision-resolution pass: clear the contact flags of every
body, then resolve all pairs. -/
def collisions (bodies : List Body) : List Body :=
  pairsLoop (bodies.map (fun q => (q.1, clearState q.2)))

/-- The all-false contact state. -/
def zeroState : MovingObjectState := ⟨false, false, false, false⟩

/-- C2 scenario body A: mass 10, box half-size (10,10), at the origin. -/
def c2a : Body := (⟨⟨10, 10⟩⟩, ⟨10, ⟨0, 0⟩, ⟨0, 0⟩, zeroState, ⟨0, 0⟩, ⟨0, 0⟩, zeroState⟩)

/-- C2 scenario body B: mass 30, box half-size (10,10), at (12,0), so the
X penetration is -8 and the Y penetration -20. -/
def c2b : Body := (⟨⟨10, 10⟩⟩, ⟨30, ⟨12, 0⟩, ⟨0, 0⟩, zeroState, ⟨0, 0⟩, ⟨0, 0⟩, zeroState⟩)

/-- Body A after the pass: displaced 2 units left, right-contact flag set. -/
def c2aOut : Body :=
  (⟨⟨10, 10⟩⟩, ⟨10, ⟨-2, 0⟩, ⟨0, 0⟩, ⟨true, false, false, false⟩, ⟨0, 0⟩, ⟨0, 0⟩, zeroState⟩)

/-- Body B after the pass: displaced 6 units right, left-contact flag set. -/
def c2bOut : Body :=
  (⟨⟨10, 10⟩⟩, ⟨30, ⟨18, 0⟩, ⟨0, 0⟩, ⟨false, true, false, false⟩, ⟨0, 0⟩, ⟨0, 0⟩, zeroState⟩)

/-- C7 witness scenario: a static body at the origin and a massive body
overlapping it. -/
def c7static : Body := (⟨⟨10, 10⟩⟩, ⟨0, ⟨0, 0⟩, ⟨0, 0⟩, zeroState, ⟨0, 0⟩, ⟨0, 0⟩, zeroState⟩)

/-- C7 witness scenario: the massive body, pushed out by the resolver. -/
def c7dyn : Body := (⟨⟨10, 10⟩⟩, ⟨1, ⟨5, 0⟩, ⟨3, 4⟩, zeroState, ⟨0, 0⟩, ⟨0, 0⟩, zeroState⟩)

/-- The static body after the pass: position unchanged, right flag set. -/
def c7staticOut : Body :=
  (⟨⟨10, 10⟩⟩, ⟨0, ⟨0, 0⟩, ⟨0, 0⟩, ⟨true, false, false, false⟩, ⟨0, 0⟩, ⟨0, 0⟩, zeroState⟩)

/-- The massive body after the pass: pushed 15 units right, left flag set. -/
def c7dynOut : Body :=
  (⟨⟨10, 10⟩⟩, ⟨1, ⟨20, 0⟩, ⟨3, 4⟩, ⟨false, true, false, false⟩, ⟨0, 0⟩, ⟨0, 0⟩, zeroState⟩)

/-! ## The flocking pipeline

The per-boid steering computation of boids.rs (move_boids), over real
2D vectors: the neighbor fold (separation plus aggregation), edge
avoidance, optional predator avoidance, cohesion, alignment, and the
speed clamp.  Jitter and the final velocity update are outside the
claims.  Division by a zero length yields the zero vector in this
real-valued model, where the f32 code would produce NaN. -/
noncomputable section

/-- 2D real vector. -/
abbrev VR := ℝ × ℝ

/-- Euclidean length of a 2D vector (Vec2::length). -/
def lenR (v : VR) : ℝ := Real.sqrt (v.1 ^ 2 + v.2 ^ 2)

/-- Vec2::normalize: the vector divided by its length. -/
def normalizeR (v : VR) : VR := (v.1 / lenR v, v.2 / lenR v)

/-- Vec2::distance between two points. -/
def distR (a b : VR) : ℝ := lenR (a.1 - b.1, a.2 - b.2)

/-- Componentwise division of a vector by a scalar. -/
def sdiv (v : VR) (c : ℝ) : VR := (v.1 / c, v.2 / c)

/-- Componentwise multiplication of a vector by a scalar. -/
def smulR (c : ℝ) (v : VR) : VR := (c * v.1, c * v.2)

/-- The flocking configuration record of boids.rs. -/
structure BoidParameters where
  max_velocity : ℝ
  min_velocity : ℝ
  view_distance : ℝ
  avoid_factor : ℝ
  centering_factor : ℝ
  matching_factor : ℝ
  multiplier : ℝ
  random_factor : ℝ
  disperse : Bool
  disperse_factor : ℝ
  avoid_player : Bool
  avoid_player_factor : ℝ
  avoid_player_distance : ℝ
  edge_avoidance_distance : ℝ
  edge_avoidance_strength : ℝ

/-- One step of the neighbor fold of move_boids: skip the boid itself,
add an immediate separation impulse for a neighbor at positive distance,
and accumulate position sum, velocity sum and count. -/
def boidFoldStep (p : BoidParameters) (selfId : ℕ) (aPos : VR)
    (acc : VR × VR × ℝ × VR) (bo : ℕ × VR × VR) : VR × VR × ℝ × VR :=
  if bo.1 = selfId then acc
  else
    let bPos := bo.2.1
    let bVel := bo.2.2
    let distance := distR aPos bPos
    let fv := if distance > 0 then
        acc.2.2.2 + smulR (p.avoid_factor / distance) (normalizeR (aPos - bPos))
      else acc.2.2.2
    (acc.1 + bPos, acc.2.1 + bVel, acc.2.2.1 + 1, fv)

/-- The accumulated steering vector of move_boids before the speed clamp:
separation fold, edge avoidance, optional predator avoidance, cohesion,
alignment. -/
def boidAccumulate (p : BoidParameters) (selfId : ℕ) (aPos aVel : VR)
    (others : List (ℕ × VR × VR)) (windowHalf : VR) (playerPos : VR) : VR :=
  let fold := others.foldl (boidFoldStep p selfId aPos)
    (((0 : ℝ), (0 : ℝ)), ((0 : ℝ), (0 : ℝ)), (0 : ℝ), ((0 : ℝ), (0 : ℝ)))
  let total_position := fold.1
  let total_velocity := fold.2.1
  let boids_amount := fold.2.2.1
  let fv0 := fold.2.2.2
  let fv1 := if aPos.1 < -windowHalf.1 + p.edge_avoidance_distance then
      fv0 + ((p.edge_avoidance_strength, 0) : VR)
    else if aPos.1 > windowHalf.1 - p.edge_avoidance_distance then
      fv0 - ((p.edge_avoidance_strength, 0) : VR)
    else fv0
  let fv2 := if aPos.2 < -windowHalf.2 + p.edge_avoidance_distance then
      fv1 + (((0 : ℝ), p.edge_avoidance_strength) : VR)
    else if aPos.2 > windowHalf.2 - p.edge_avoidance_distance then
      fv1 - (((0 : ℝ), p.edge_avoidance_strength) : VR)
    else fv1
  let fv3 := if p.avoid_player then
      let distance := distR aPos playerPos
      if distance < p.avoid_player_distance ∧ distance > 0 then
        fv2 + smulR (p.avoid_player_factor / distance) (normalizeR (aPos - playerPos))
      else fv2
    else fv2
  let fv4 := if boids_amount > 0 then
      let percieved_center := sdiv (total_position - aPos) boids_amount
      if p.disperse then
        fv3 + smulR p.disperse_factor (smulR p.centering_factor (aPos - percieved_center))
      else
        fv3 + smulR p.centering_factor (percieved_center - aPos)
    else fv3
  let fv5 := if boids_amount > 0 then
      let percieved_velocity :=
        smulR p.max_velocity (normalizeR (sdiv (total_velocity - aVel) boids_amount))
      fv4 + smulR p.matching_factor (percieved_velocity - aVel)
    else fv4
  fv5

/-- The speed clamp of move_boids: rescale to max above max, up to min
when positive but below min, and leave the zero vector alone. -/
def boidClamp (p : BoidParameters) (v : VR) : VR :=
  let len := lenR v
  if len > 0 then
    if len > p.max_velocity then smulR p.max_velocity (normalizeR v)
    else if len < p.min_velocity then smulR p.min_velocity (normalizeR v)
    else v
  else v

/-- The steering vector of one boid before jitter is added. -/
def boidSteerPreJitter (p : BoidParameters) (selfId : ℕ) (aPos aVel : VR)
    (others : List (ℕ × VR × VR)) (windowHalf : VR) (playerPos : VR) : VR :=
  boidClamp p (boidAccumulate p selfId aPos aVel others windowHalf playerPos)

/-- Sum of the velocities of the non-self queried neighbors. -/
def neighborVelocitySum (selfId : ℕ) (others : List (ℕ × VR × VR)) : VR :=
  ((others.filter (fun bo => bo.1 != selfId)).map (fun bo => bo.2.2)).sum

/-- Sum of the positions of the non-self queried neighbors. -/
def neighborPositionSum (selfId : ℕ) (others : List (ℕ × VR × VR)) : VR :=
  ((others.filter (fun bo => bo.1 != selfId)).map (fun bo => bo.2.1)).sum

/-- Number of non-self queried neighbors. -/
def neighborCount (selfId : ℕ) (others : List (ℕ × VR × VR)) : ℕ :=
  (others.filter (fun bo => bo.1 != selfId)).length

end

/-- The spawn-time parameter record of boids.rs, used for the boid
witness scenarios. -/
noncomputable def c5p : BoidParameters :=
  ⟨600, 40, 25, 3, 1 / 200, 1 / 10, 2, 1 / 10, false, 20, false, 2000, 32, 10, 10⟩

/-- C5 counterexample self position. -/
noncomputable def c5aPos : VR := (0, 0)

/-- C5 counterexample self velocity. -/
noncomputable def c5aVel : VR := (0, 0)

/-- C5 counterexample neighbor list: one neighbor at (3,4) with velocity
(3,4). -/
noncomputable def c5others : List (ℕ × VR × VR) :=
  [(1, ((3 : ℝ), (4 : ℝ)), ((3 : ℝ), (4 : ℝ)))]

/-- C5 counterexample window half-size (far from every edge). -/
noncomputable def c5win : VR := (10000, 10000)

/-- C5 counterexample player position (predator avoidance is off). -/
noncomputable def c5player : VR := (1000, 1000)

/-- C9: penetration_depth returns none exactly when the exact AABB overlap
test fails; when it returns some v, each axis of v is the nearer-edge signed
penetration: if A's center is strictly to the right of B's center on X, v.x
is B's right edge minus A's left edge, and otherwise v.x is B's left edge
minus A's right edge; likewise on Y. -/
theorem penetration_depth_semantics (a_aabb : AABB) (a_pos : V2) (b_aabb : AABB) (b_pos : V2) :
    (penetration_depth a_aabb a_pos b_aabb b_pos = none
        ↔ ¬ collides a_aabb a_pos b_aabb b_pos)
    ∧ ∀ v, penetration_depth a_aabb a_pos b_aabb b_pos = some v →
        ((b_pos.x < a_pos.x →
            v.x = (b_pos.x + b_aabb.halfsize.x) - (a_pos.x - a_aabb.halfsize.x))
          ∧ (¬ b_pos.x < a_pos.x →
            v.x = (b_pos.x - b_aabb.halfsize.x) - (a_pos.x + a_aabb.halfsize.x))
          ∧ (b_pos.y < a_pos.y →
            v.y = (b_pos.y + b_aabb.halfsize.y) - (a_pos.y - a_aabb.halfsize.y))
          ∧ (¬ b_pos.y < a_pos.y →
            v.y = (b_pos.y - b_aabb.halfsize.y) - (a_pos.y + a_aabb.halfsize.y))) := by
  constructor
  · by_cases hc : collides a_aabb a_pos b_aabb b_pos
    · simp [penetration_depth, hc]
    · simp [penetration_depth, hc]
  · intro v hv
    by_cases hc : collides a_aabb a_pos b_aabb b_pos
    · simp only [penetration_depth, if_pos hc, Option.some.injEq] at hv
      refine ⟨fun h => ?_, fun h => ?_, fun h => ?_, fun h => ?_⟩ <;>
        · rw [← hv]
          simp [gt_iff_lt, h]
    · simp [penetration_depth, hc] at hv

/-- Witness for C9 at a concrete pair: boxes of half-size (10,10) at
positions (0,0) and (12,0) give penetration (-8,-20) via the nearer-edge
formulas. -/
theorem penetration_depth_semantics_witness :
    (V2.mk (-8 : ℚ) (-20)).x = ((12 : ℚ) - 10) - (0 + 10)
      ∧ (V2.mk (-8 : ℚ) (-20)).y = ((0 : ℚ) - 10) - (0 + 10) := by
  have h := (penetration_depth_semantics ⟨⟨10, 10⟩⟩ ⟨0, 0⟩ ⟨⟨10, 10⟩⟩ ⟨12, 0⟩).2
    ⟨-8, -20⟩ (by norm_num [penetration_depth, collides])
  exact ⟨h.2.1 (by norm_num), h.2.2.2 (by norm_num)⟩

/-- C10: each child created by subdivision has half the parent's half-size
and a center offset from the parent's center by that half-half-size on each
axis; the four child regions tile the parent region exactly (union equals
the parent region, interiors pairwise disjoint). -/
theorem subdivide_tiling (b : AABB) (c : V2) :
    (∀ ch ∈ subdivideChildren b c,
        ch.1.halfsize.x = b.halfsize.x / 2 ∧ ch.1.halfsize.y = b.halfsize.y / 2
          ∧ (ch.2.x = c.x - b.halfsize.x / 2 ∨ ch.2.x = c.x + b.halfsize.x / 2)
          ∧ (ch.2.y = c.y - b.halfsize.y / 2 ∨ ch.2.y = c.y + b.halfsize.y / 2))
    ∧ (∀ p : ℚ × ℚ, p ∈ region b c ↔
        ∃ ch ∈ subdivideChildren b c, p ∈ region ch.1 ch.2)
    ∧ (∀ ch1 ∈ subdivideChildren b c, ∀ ch2 ∈ subdivideChildren b c, ch1 ≠ ch2 →
        ∀ p : ℚ × ℚ, ¬ (p ∈ interiorRegion ch1.1 ch1.2 ∧ p ∈ interiorRegion ch2.1 ch2.2)) := by
  refine ⟨?_, ?_, ?_⟩
  · intro ch hch
    simp only [subdivideChildren, List.mem_cons, List.not_mem_nil, or_false] at hch
    rcases hch with h | h | h | h <;> subst h <;> simp
  · intro p
    constructor
    · intro hp
      simp only [region, Set.mem_setOf_eq] at hp
      obtain ⟨h1, h2, h3, h4⟩ := hp
      rcases le_or_lt p.1 c.x with hx | hx <;> rcases le_or_lt p.2 c.y with hy | hy
      · refine ⟨(⟨⟨b.halfsize.x / 2, b.halfsize.y / 2⟩⟩,
          ⟨c.x - b.halfsize.x / 2, c.y - b.halfsize.y / 2⟩), ?_, ?_⟩
        · simp [subdivideChildren]
        · simp only [region, Set.mem_setOf_eq]
          constructor
          · linarith
          · refine ⟨by linarith, by linarith, by linarith⟩
      · refine ⟨(⟨⟨b.halfsize.x / 2, b.halfsize.y / 2⟩⟩,
          ⟨c.x - b.halfsize.x / 2, c.y + b.halfsize.y / 2⟩), ?_, ?_⟩
        · simp [subdivideChildren]
        · simp only [region, Set.mem_setOf_eq]
          refine ⟨by linarith, by linarith, by linarith, by linarith⟩
      · refine ⟨(⟨⟨b.halfsize.x / 2, b.halfsize.y / 2⟩⟩,
          ⟨c.x + b.halfsize.x / 2, c.y - b.halfsize.y / 2⟩), ?_, ?_⟩
        · simp [subdivideChildren]
        · simp only [region, Set.mem_setOf_eq]
          refine ⟨by linarith, by linarith, by linarith, by linarith⟩
      · refine ⟨(⟨⟨b.halfsize.x / 2, b.halfsize.y / 2⟩⟩,
          ⟨c.x + b.halfsize.x / 2, c.y + b.halfsize.y / 2⟩), ?_, ?_⟩
        · simp [subdivideChildren]
        · simp only [region, Set.mem_setOf_eq]
          refine ⟨by linarith, by linarith, by linarith, by linarith⟩
    · rintro ⟨ch, hch, hp⟩
      simp only [subdivideChildren, List.mem_cons, List.not_mem_nil, or_false] at hch
      simp only [region, Set.mem_setOf_eq] at hp ⊢
      rcases hch with h | h | h | h <;> subst h <;>
        · simp only at hp
          obtain ⟨h1, h2, h3, h4⟩ := hp
          refine ⟨by linarith, by linarith, by linarith, by linarith⟩
  · intro ch1 h1 ch2 h2 hne p hmem
    obtain ⟨hp1, hp2⟩ := hmem
    simp only [subdivideChildren, List.mem_cons, List.not_mem_nil, or_false] at h1 h2
    rcases h1 with h | h | h | h <;> rcases h2 with g | g | g | g <;>
      subst h <;> subst g <;>
      simp only [interiorRegion, Set.mem_setOf_eq] at hp1 hp2 <;>
      obtain ⟨a1, a2, a3, a4⟩ := hp1 <;>
      obtain ⟨b1, b2, b3, b4⟩ := hp2 <;>
      first
        | exact hne rfl
        | linarith

/-- Witness for C10 at a concrete parent: half-size (2,2) at the origin; the
point (0,1) is not in the interiors of both the NW and NE children. -/
theorem subdivide_tiling_witness :
    ¬ (((0 : ℚ), (1 : ℚ)) ∈
          interiorRegion (AABB.mk ⟨1, 1⟩) (V2.mk (-1) 1)
        ∧ ((0 : ℚ), (1 : ℚ)) ∈
          interiorRegion (AABB.mk ⟨1, 1⟩) (V2.mk 1 1)) :=
  (subdivide_tiling ⟨⟨2, 2⟩⟩ ⟨0, 0⟩).2.2
    (⟨⟨1, 1⟩⟩, ⟨-1, 1⟩) (by norm_num [subdivideChildren])
    (⟨⟨1, 1⟩⟩, ⟨1, 1⟩) (by norm_num [subdivideChildren])
    (by norm_num) ((0 : ℚ), (1 : ℚ))

/-! Unfolding equations for the fueled operations. -/
theorem insertF_zero (t : QT) (e : Obj) : insertF 0 t e = none := by
  cases t <;> simp [insertF]

theorem insertF_succ_leaf (n : ℕ) (b : AABB) (c : V2) (cap : ℕ) (objs : List Obj) (e : Obj) :
    insertF (n+1) (QT.leaf b c cap objs) e =
      if collides b c e.box e.pos then
        if objs.length < cap then some (QT.leaf b c cap (objs ++ [e]), true)
        else
          match redistF n (mkNode b c cap) objs with
          | none => none
          | some t1 => insert4F n t1 e
      else some (QT.leaf b c cap objs, false) := by
  simp [insertF]

theorem insertF_succ_node (n : ℕ) (b : AABB) (c : V2) (cap : ℕ) (nw ne sw se : QT) (e : Obj) :
    insertF (n+1) (QT.node b c cap nw ne sw se) e =
      if collides b c e.box e.pos then insert4F n (QT.node b c cap nw ne sw se) e
      else some (QT.node b c cap nw ne sw se, false) := by
  simp [insertF]

theorem insert4F_leaf (n : ℕ) (b : AABB) (c : V2) (cap : ℕ) (objs : List Obj) (e : Obj) :
    insert4F n (QT.leaf b c cap objs) e = some (QT.leaf b c cap objs, false) := by
  simp [insert4F]

theorem insert4F_node (n : ℕ) (b : AABB) (c : V2) (cap : ℕ) (nw ne sw se : QT) (e : Obj) :
    insert4F n (QT.node b c cap nw ne sw se) e =
      match insertF n nw e with
      | none => none
      | some (nw1, r1) =>
        match insertF n ne e with
        | none => none
        | some (ne1, r2) =>
          match insertF n sw e with
          | none => none
          | some (sw1, r3) =>
            match insertF n se e with
            | none => none
            | some (se1, r4) =>
              some (QT.node b c cap nw1 ne1 sw1 se1, (r1 || r2 || r3 || r4)) := by
  simp [insert4F]

theorem redistF_nil (n : ℕ) (t : QT) : redistF n t [] = some t := by
  simp [redistF]

theorem buildF_nil (n : ℕ) (t : QT) : buildF n t [] = some (t, []) := rfl

theorem buildF_cons (n : ℕ) (t : QT) (e : Obj) (es : List Obj) :
    buildF n t (e :: es) =
      match insertF n t e with
      | none => none
      | some (t1, r) =>
        match buildF n t1 es with
        | none => none
        | some (t2, rs) => some (t2, r :: rs) := rfl

theorem buildF_cons_none {n : ℕ} {t : QT} {e : Obj} {es : List Obj}
    (h : insertF n t e = none) : buildF n t (e :: es) = none := by
  rw [buildF_cons, h]

theorem buildF_cons_some {n : ℕ} {t t1 : QT} {r : Bool} {e : Obj} {es : List Obj}
    (h : insertF n t e = some (t1, r)) :
    buildF n t (e :: es) =
      match buildF n t1 es with
      | none => none
      | some (t2, rs) => some (t2, r :: rs) := by
  rw [buildF_cons, h]

theorem redistF_cons (n : ℕ) (t : QT) (e : Obj) (es : List Obj) :
    redistF n t (e :: es) =
      match insertF n t e with
      | none => none
      | some (t1, _) => redistF n t1 es := by
  simp [redistF]

theorem insertF_push {n : ℕ} {b : AABB} {c : V2} {cap : ℕ} {objs : List Obj} {e : Obj}
    (hc : collides b c e.box e.pos) (hlen : objs.length < cap) :
    insertF (n+1) (QT.leaf b c cap objs) e = some (QT.leaf b c cap (objs ++ [e]), true) := by
  rw [insertF_succ_leaf, if_pos hc, if_pos hlen]

theorem insertF_full {n : ℕ} {b : AABB} {c : V2} {cap : ℕ} {objs : List Obj} {e : Obj}
    (hc : collides b c e.box e.pos) (hlen : ¬ objs.length < cap) :
    insertF (n+1) (QT.leaf b c cap objs) e =
      match redistF n (mkNode b c cap) objs with
      | none => none
      | some t1 => insert4F n t1 e := by
  rw [insertF_succ_leaf, if_pos hc, if_neg hlen]

theorem insertF_node_coll {n : ℕ} {b : AABB} {c : V2} {cap : ℕ} {nw ne sw se : QT} {e : Obj}
    (hc : collides b c e.box e.pos) :
    insertF (n+1) (QT.node b c cap nw ne sw se) e = insert4F n (QT.node b c cap nw ne sw se) e := by
  rw [insertF_succ_node, if_pos hc]

theorem insertF_nocoll {n : ℕ} {t : QT} {e : Obj}
    (hc : ¬ collides (bnd t) (ctr t) e.box e.pos) :
    insertF (n+1) t e = some (t, false) := by
  cases t with
  | leaf b c cap objs =>
    dsimp only [bnd, ctr] at hc
    rw [insertF_succ_leaf, if_neg hc]
  | node b c cap nw ne sw se =>
    dsimp only [bnd, ctr] at hc
    rw [insertF_succ_node, if_neg hc]

theorem redistF_cons_none {n : ℕ} {t : QT} {e : Obj} {es : List Obj}
    (h : insertF n t e = none) : redistF n t (e :: es) = none := by
  rw [redistF_cons, h]

theorem redistF_cons_some {n : ℕ} {t t1 : QT} {r : Bool} {e : Obj} {es : List Obj}
    (h : insertF n t e = some (t1, r)) : redistF n t (e :: es) = redistF n t1 es := by
  rw [redistF_cons, h]

theorem insert4F_none1 {n : ℕ} {b : AABB} {c : V2} {cap : ℕ} {nw ne sw se : QT} {e : Obj}
    (h1 : insertF n nw e = none) :
    insert4F n (QT.node b c cap nw ne sw se) e = none := by
  rw [insert4F_node, h1]

theorem insert4F_none2 {n : ℕ} {b : AABB} {c : V2} {cap : ℕ} {nw ne sw se nw1 : QT}
    {r1 : Bool} {e : Obj}
    (h1 : insertF n nw e = some (nw1, r1)) (h2 : insertF n ne e = none) :
    insert4F n (QT.node b c cap nw ne sw se) e = none := by
  rw [insert4F_node, h1, h2]

theorem insert4F_none3 {n : ℕ} {b : AABB} {c : V2} {cap : ℕ} {nw ne sw se nw1 ne1 : QT}
    {r1 r2 : Bool} {e : Obj}
    (h1 : insertF n nw e = some (nw1, r1)) (h2 : insertF n ne e = some (ne1, r2))
    (h3 : insertF n sw e = none) :
    insert4F n (QT.node b c cap nw ne sw se) e = none := by
  rw [insert4F_node, h1, h2, h3]

theorem insert4F_none4 {n : ℕ} {b : AABB} {c : V2} {cap : ℕ} {nw ne sw se nw1 ne1 sw1 : QT}
    {r1 r2 r3 : Bool} {e : Obj}
    (h1 : insertF n nw e = some (nw1, r1)) (h2 : insertF n ne e = some (ne1, r2))
    (h3 : insertF n sw e = some (sw1, r3)) (h4 : insertF n se e = none) :
    insert4F n (QT.node b c cap nw ne sw se) e = none := by
  rw [insert4F_node, h1, h2, h3, h4]

theorem insert4F_some {n : ℕ} {b : AABB} {c : V2} {cap : ℕ}
    {nw ne sw se nw1 ne1 sw1 se1 : QT} {r1 r2 r3 r4 : Bool} {e : Obj}
    (h1 : insertF n nw e = some (nw1, r1)) (h2 : insertF n ne e = some (ne1, r2))
    (h3 : insertF n sw e = some (sw1, r3)) (h4 : insertF n se e = some (se1, r4)) :
    insert4F n (QT.node b c cap nw ne sw se) e
      = some (QT.node b c cap nw1 ne1 sw1 se1, (r1 || r2 || r3 || r4)) := by
  rw [insert4F_node, h1, h2, h3, h4]

theorem insertF_full_none {n : ℕ} {b : AABB} {c : V2} {cap : ℕ} {objs : List Obj} {e : Obj}
    (hc : collides b c e.box e.pos) (hlen : ¬ objs.length < cap)
    (hr : redistF n (mkNode b c cap) objs = none) :
    insertF (n+1) (QT.leaf b c cap objs) e = none := by
  rw [insertF_full hc hlen, hr]

theorem insertF_full_some {n : ℕ} {b : AABB} {c : V2} {cap : ℕ} {objs : List Obj}
    {t1 : QT} {e : Obj}
    (hc : collides b c e.box e.pos) (hlen : ¬ objs.length < cap)
    (hr : redistF n (mkNode b c cap) objs = some t1) :
    insertF (n+1) (QT.leaf b c cap objs) e = insert4F n t1 e := by
  rw [insertF_full hc hlen, hr]

theorem famLeaf_collides (s : ℚ) (hs : 0 < s) (i : ℕ) :
    collides ⟨⟨s, s⟩⟩ ⟨-s, s⟩ (c4E i).box (c4E i).pos := by
  dsimp only [collides, c4E]
  refine ⟨by linarith, by linarith, by linarith, by linarith⟩

theorem seChild_famLeaf (s : ℚ) :
    QT.leaf ⟨⟨s / 2, s / 2⟩⟩ ⟨-s + s / 2, s - s / 2⟩ 2 [c4E 0, c4E 1] = famLeaf (s / 2) := by
  have hx : -s + s / 2 = -(s / 2) := by ring
  have hy : s - s / 2 = s / 2 := by ring
  rw [famLeaf, hx, hy]

theorem c4_family (n : ℕ) : ∀ s : ℚ, 0 < s → insertF n (famLeaf s) (c4E 2) = none := by
  induction n with
  | zero => intro s hs; exact insertF_zero _ _
  | succ n ih =>
    intro s hs
    have hs2 : 0 < s / 2 := by linarith
    have hc0 := famLeaf_collides s hs 0
    have hc1 := famLeaf_collides s hs 1
    have hc2 := famLeaf_collides s hs 2
    cases n with
    | zero =>
      rw [famLeaf, insertF_full_none hc2 (by norm_num) (redistF_cons_none (insertF_zero _ _))]
    | succ m =>
      have hmk : mkNode ⟨⟨s, s⟩⟩ ⟨-s, s⟩ (2 : ℕ) = QT.node ⟨⟨s, s⟩⟩ ⟨-s, s⟩ 2
          (QT.leaf ⟨⟨s / 2, s / 2⟩⟩ ⟨-s - s / 2, s + s / 2⟩ 2 [])
          (QT.leaf ⟨⟨s / 2, s / 2⟩⟩ ⟨-s + s / 2, s + s / 2⟩ 2 [])
          (QT.leaf ⟨⟨s / 2, s / 2⟩⟩ ⟨-s - s / 2, s - s / 2⟩ 2 [])
          (QT.leaf ⟨⟨s / 2, s / 2⟩⟩ ⟨-s + s / 2, s - s / 2⟩ 2 []) := rfl
      have hcse0 : collides ⟨⟨s / 2, s / 2⟩⟩ ⟨-s + s / 2, s - s / 2⟩
          (c4E 0).box (c4E 0).pos := by
        dsimp only [collides, c4E]
        refine ⟨by linarith, by linarith, by linarith, by linarith⟩
      have hcse1 : collides ⟨⟨s / 2, s / 2⟩⟩ ⟨-s + s / 2, s - s / 2⟩
          (c4E 1).box (c4E 1).pos := by
        dsimp only [collides, c4E]
        refine ⟨by linarith, by linarith, by linarith, by linarith⟩
      rcases hnw0 : insertF m (QT.leaf ⟨⟨s / 2, s / 2⟩⟩ ⟨-s - s / 2, s + s / 2⟩ 2 []) (c4E 0)
        with _ | ⟨tnw0, rnw0⟩
      · rw [famLeaf, insertF_full_none hc2 (by norm_num) (redistF_cons_none
          (by rw [hmk, insertF_node_coll hc0, insert4F_none1 hnw0]))]
      rcases hne0 : insertF m (QT.leaf ⟨⟨s / 2, s / 2⟩⟩ ⟨-s + s / 2, s + s / 2⟩ 2 []) (c4E 0)
        with _ | ⟨tne0, rne0⟩
      · rw [famLeaf, insertF_full_none hc2 (by norm_num) (redistF_cons_none
          (by rw [hmk, insertF_node_coll hc0, insert4F_none2 hnw0 hne0]))]
      rcases hsw0 : insertF m (QT.leaf ⟨⟨s / 2, s / 2⟩⟩ ⟨-s - s / 2, s - s / 2⟩ 2 []) (c4E 0)
        with _ | ⟨tsw0, rsw0⟩
      · rw [famLeaf, insertF_full_none hc2 (by norm_num) (redistF_cons_none
          (by rw [hmk, insertF_node_coll hc0, insert4F_none3 hnw0 hne0 hsw0]))]
      cases m with
      | zero =>
        rw [famLeaf, insertF_full_none hc2 (by norm_num) (redistF_cons_none
          (by rw [hmk, insertF_node_coll hc0, insert4F_none4 hnw0 hne0 hsw0 (insertF_zero _ _)]))]
      | succ k =>
        have hse0 : insertF (k + 1) (QT.leaf ⟨⟨s / 2, s / 2⟩⟩ ⟨-s + s / 2, s - s / 2⟩ 2 [])
            (c4E 0) = some (QT.leaf ⟨⟨s / 2, s / 2⟩⟩ ⟨-s + s / 2, s - s / 2⟩ 2 [c4E 0], true) :=
          insertF_push hcse0 (by norm_num)
        have hE0 : insertF (k + 1 + 1) (mkNode ⟨⟨s, s⟩⟩ ⟨-s, s⟩ 2) (c4E 0)
            = some (QT.node ⟨⟨s, s⟩⟩ ⟨-s, s⟩ 2 tnw0 tne0 tsw0
                (QT.leaf ⟨⟨s / 2, s / 2⟩⟩ ⟨-s + s / 2, s - s / 2⟩ 2 [c4E 0]),
              (rnw0 || rne0 || rsw0 || true)) := by
          rw [hmk, insertF_node_coll hc0, insert4F_some hnw0 hne0 hsw0 hse0]
        have hse1 : insertF (k + 1) (QT.leaf ⟨⟨s / 2, s / 2⟩⟩ ⟨-s + s / 2, s - s / 2⟩ 2 [c4E 0])
            (c4E 1)
            = some (QT.leaf ⟨⟨s / 2, s / 2⟩⟩ ⟨-s + s / 2, s - s / 2⟩ 2 [c4E 0, c4E 1], true) :=
          insertF_push hcse1 (by norm_num)
        rcases hnw1 : insertF (k + 1) tnw0 (c4E 1) with _ | ⟨tnw1, rnw1⟩
        · rw [famLeaf, insertF_full_none hc2 (by norm_num) (by
            rw [redistF_cons_some hE0]
            exact redistF_cons_none (by rw [insertF_node_coll hc1, insert4F_none1 hnw1]))]
        rcases hne1 : insertF (k + 1) tne0 (c4E 1) with _ | ⟨tne1, rne1⟩
        · rw [famLeaf, insertF_full_none hc2 (by norm_num) (by
            rw [redistF_cons_some hE0]
            exact redistF_cons_none (by rw [insertF_node_coll hc1, insert4F_none2 hnw1 hne1]))]
        rcases hsw1 : insertF (k + 1) tsw0 (c4E 1) with _ | ⟨tsw1, rsw1⟩
        · rw [famLeaf, insertF_full_none hc2 (by norm_num) (by
            rw [redistF_cons_some hE0]
            exact redistF_cons_none (by
              rw [insertF_node_coll hc1, insert4F_none3 hnw1 hne1 hsw1]))]
        have hE1 : insertF (k + 1 + 1) (QT.node ⟨⟨s, s⟩⟩ ⟨-s, s⟩ 2 tnw0 tne0 tsw0
              (QT.leaf ⟨⟨s / 2, s / 2⟩⟩ ⟨-s + s / 2, s - s / 2⟩ 2 [c4E 0])) (c4E 1)
            = some (QT.node ⟨⟨s, s⟩⟩ ⟨-s, s⟩ 2 tnw1 tne1 tsw1
                (QT.leaf ⟨⟨s / 2, s / 2⟩⟩ ⟨-s + s / 2, s - s / 2⟩ 2 [c4E 0, c4E 1]),
              (rnw1 || rne1 || rsw1 || true)) := by
          rw [insertF_node_coll hc1, insert4F_some hnw1 hne1 hsw1 hse1]
        have hRed : redistF (k + 1 + 1) (mkNode ⟨⟨s, s⟩⟩ ⟨-s, s⟩ 2) [c4E 0, c4E 1]
            = some (QT.node ⟨⟨s, s⟩⟩ ⟨-s, s⟩ 2 tnw1 tne1 tsw1
                (QT.leaf ⟨⟨s / 2, s / 2⟩⟩ ⟨-s + s / 2, s - s / 2⟩ 2 [c4E 0, c4E 1])) := by
          rw [redistF_cons_some hE0, redistF_cons_some hE1, redistF_nil]
        have hseFam : insertF (k + 1 + 1)
            (QT.leaf ⟨⟨s / 2, s / 2⟩⟩ ⟨-s + s / 2, s - s / 2⟩ 2 [c4E 0, c4E 1]) (c4E 2)
            = none := by
          rw [seChild_famLeaf]
          exact ih (s / 2) hs2
        rcases hnw2 : insertF (k + 1 + 1) tnw1 (c4E 2) with _ | ⟨tnw2, rnw2⟩
        · rw [famLeaf, insertF_full_some hc2 (by norm_num) hRed, insert4F_none1 hnw2]
        rcases hne2 : insertF (k + 1 + 1) tne1 (c4E 2) with _ | ⟨tne2, rne2⟩
        · rw [famLeaf, insertF_full_some hc2 (by norm_num) hRed, insert4F_none2 hnw2 hne2]
        rcases hsw2 : insertF (k + 1 + 1) tsw1 (c4E 2) with _ | ⟨tsw2, rsw2⟩
        · rw [famLeaf, insertF_full_some hc2 (by norm_num) hRed,
            insert4F_none3 hnw2 hne2 hsw2]
        rw [famLeaf, insertF_full_some hc2 (by norm_num) hRed,
          insert4F_none4 hnw2 hne2 hsw2 hseFam]

/-- C4 is violated by the code: inserting three co-located entries into a
fresh capacity-2 tree exhausts any amount of fuel — the recursion has no
depth or minimum-cell-size bound, so the fueled model of insertion returns
none for every fuel value. -/
theorem c4_unbounded_subdivision (n : ℕ) :
    buildF n c4Root [c4E 0, c4E 1, c4E 2] = none := by
  cases n with
  | zero => rw [buildF_cons_none (insertF_zero _ _)]
  | succ m =>
    have hcr : ∀ i : ℕ, collides ⟨⟨50, 50⟩⟩ ⟨0, 0⟩ (c4E i).box (c4E i).pos := by
      intro i
      dsimp only [collides, c4E]
      norm_num
    have h1 : insertF (m + 1) (QT.leaf ⟨⟨50, 50⟩⟩ ⟨0, 0⟩ 2 []) (c4E 0)
        = some (QT.leaf ⟨⟨50, 50⟩⟩ ⟨0, 0⟩ 2 [c4E 0], true) :=
      insertF_push (hcr 0) (by norm_num)
    have h2 : insertF (m + 1) (QT.leaf ⟨⟨50, 50⟩⟩ ⟨0, 0⟩ 2 [c4E 0]) (c4E 1)
        = some (QT.leaf ⟨⟨50, 50⟩⟩ ⟨0, 0⟩ 2 [c4E 0, c4E 1], true) :=
      insertF_push (hcr 1) (by norm_num)
    have h3 : insertF (m + 1) (QT.leaf ⟨⟨50, 50⟩⟩ ⟨0, 0⟩ 2 [c4E 0, c4E 1]) (c4E 2) = none := by
      cases m with
      | zero =>
        exact insertF_full_none (hcr 2) (by norm_num) (redistF_cons_none (insertF_zero _ _))
      | succ k =>
        have hmk : mkNode ⟨⟨50, 50⟩⟩ ⟨0, 0⟩ (2 : ℕ) = QT.node ⟨⟨50, 50⟩⟩ ⟨0, 0⟩ 2
            (QT.leaf ⟨⟨25, 25⟩⟩ ⟨-25, 25⟩ 2 [])
            (QT.leaf ⟨⟨25, 25⟩⟩ ⟨25, 25⟩ 2 [])
            (QT.leaf ⟨⟨25, 25⟩⟩ ⟨-25, -25⟩ 2 [])
            (QT.leaf ⟨⟨25, 25⟩⟩ ⟨25, -25⟩ 2 []) := by
          norm_num [mkNode, childHalfsize]
        have hchild : ∀ i : ℕ, ∀ cx cy : ℚ, (cx = -25 ∨ cx = 25) → (cy = -25 ∨ cy = 25) →
            collides ⟨⟨25, 25⟩⟩ ⟨cx, cy⟩ (c4E i).box (c4E i).pos := by
          intro i cx cy hx hy
          dsimp only [collides, c4E]
          rcases hx with h | h <;> rcases hy with g | g <;> subst h <;> subst g <;> norm_num
        cases k with
        | zero =>
          refine insertF_full_none (hcr 2) (by norm_num) (redistF_cons_none ?_)
          rw [hmk, insertF_node_coll (hcr 0), insert4F_none1 (insertF_zero _ _)]
        | succ j =>
          have pushE : ∀ (i : ℕ) (cx cy : ℚ), (cx = -25 ∨ cx = 25) → (cy = -25 ∨ cy = 25) →
              ∀ objs : List Obj, objs.length < 2 →
              insertF (j + 1) (QT.leaf ⟨⟨25, 25⟩⟩ ⟨cx, cy⟩ 2 objs) (c4E i)
                = some (QT.leaf ⟨⟨25, 25⟩⟩ ⟨cx, cy⟩ 2 (objs ++ [c4E i]), true) := by
            intro i cx cy hx hy objs hlen
            exact insertF_push (hchild i cx cy hx hy) hlen
          have hE0 : insertF (j + 1 + 1) (mkNode ⟨⟨50, 50⟩⟩ ⟨0, 0⟩ 2) (c4E 0)
              = some (QT.node ⟨⟨50, 50⟩⟩ ⟨0, 0⟩ 2
                  (QT.leaf ⟨⟨25, 25⟩⟩ ⟨-25, 25⟩ 2 [c4E 0])
                  (QT.leaf ⟨⟨25, 25⟩⟩ ⟨25, 25⟩ 2 [c4E 0])
                  (QT.leaf ⟨⟨25, 25⟩⟩ ⟨-25, -25⟩ 2 [c4E 0])
                  (QT.leaf ⟨⟨25, 25⟩⟩ ⟨25, -25⟩ 2 [c4E 0]), true) := by
            rw [hmk, insertF_node_coll (hcr 0),
              insert4F_some (pushE 0 (-25) 25 (Or.inl rfl) (Or.inr rfl) [] (by norm_num))
                (pushE 0 25 25 (Or.inr rfl) (Or.inr rfl) [] (by norm_num))
                (pushE 0 (-25) (-25) (Or.inl rfl) (Or.inl rfl) [] (by norm_num))
                (pushE 0 25 (-25) (Or.inr rfl) (Or.inl rfl) [] (by norm_num))]
            rfl
          have hE1 : insertF (j + 1 + 1) (QT.node ⟨⟨50, 50⟩⟩ ⟨0, 0⟩ 2
                (QT.leaf ⟨⟨25, 25⟩⟩ ⟨-25, 25⟩ 2 [c4E 0])
                (QT.leaf ⟨⟨25, 25⟩⟩ ⟨25, 25⟩ 2 [c4E 0])
                (QT.leaf ⟨⟨25, 25⟩⟩ ⟨-25, -25⟩ 2 [c4E 0])
                (QT.leaf ⟨⟨25, 25⟩⟩ ⟨25, -25⟩ 2 [c4E 0])) (c4E 1)
              = some (QT.node ⟨⟨50, 50⟩⟩ ⟨0, 0⟩ 2
                  (QT.leaf ⟨⟨25, 25⟩⟩ ⟨-25, 25⟩ 2 [c4E 0, c4E 1])
                  (QT.leaf ⟨⟨25, 25⟩⟩ ⟨25, 25⟩ 2 [c4E 0, c4E 1])
                  (QT.leaf ⟨⟨25, 25⟩⟩ ⟨-25, -25⟩ 2 [c4E 0, c4E 1])
                  (QT.leaf ⟨⟨25, 25⟩⟩ ⟨25, -25⟩ 2 [c4E 0, c4E 1]), true) := by
            rw [insertF_node_coll (hcr 1),
              insert4F_some (pushE 1 (-25) 25 (Or.inl rfl) (Or.inr rfl) [c4E 0] (by norm_num))
                (pushE 1 25 25 (Or.inr rfl) (Or.inr rfl) [c4E 0] (by norm_num))
                (pushE 1 (-25) (-25) (Or.inl rfl) (Or.inl rfl) [c4E 0] (by norm_num))
                (pushE 1 25 (-25) (Or.inr rfl) (Or.inl rfl) [c4E 0] (by norm_num))]
            rfl
          have hRed : redistF (j + 1 + 1) (mkNode ⟨⟨50, 50⟩⟩ ⟨0, 0⟩ 2) [c4E 0, c4E 1]
              = some (QT.node ⟨⟨50, 50⟩⟩ ⟨0, 0⟩ 2
                  (QT.leaf ⟨⟨25, 25⟩⟩ ⟨-25, 25⟩ 2 [c4E 0, c4E 1])
                  (QT.leaf ⟨⟨25, 25⟩⟩ ⟨25, 25⟩ 2 [c4E 0, c4E 1])
                  (QT.leaf ⟨⟨25, 25⟩⟩ ⟨-25, -25⟩ 2 [c4E 0, c4E 1])
                  (QT.leaf ⟨⟨25, 25⟩⟩ ⟨25, -25⟩ 2 [c4E 0, c4E 1])) := by
            rw [redistF_cons_some hE0, redistF_cons_some hE1, redistF_nil]
          have hnwFam : insertF (j + 1 + 1)
              (QT.leaf ⟨⟨25, 25⟩⟩ ⟨-25, 25⟩ 2 [c4E 0, c4E 1]) (c4E 2) = none := by
            have hfam : QT.leaf ⟨⟨25, 25⟩⟩ ⟨-25, 25⟩ 2 [c4E 0, c4E 1] = famLeaf 25 := rfl
            rw [hfam]
            exact c4_family (j + 1 + 1) 25 (by norm_num)
          rw [insertF_full_some (hcr 2) (by norm_num) hRed, insert4F_none1 hnwFam]
    rw [show c4Root = QT.leaf ⟨⟨50, 50⟩⟩ ⟨0, 0⟩ 2 [] from rfl,
      buildF_cons_some h1, buildF_cons_some h2, buildF_cons_none h3]

theorem collides_symm {a : AABB} {ap : V2} {b : AABB} {bp : V2}
    (h : collides a ap b bp) : collides b bp a ap := by
  dsimp only [collides] at h ⊢
  obtain ⟨h1, h2, h3, h4⟩ := h
  exact ⟨by linarith, by linarith, by linarith, by linarith⟩

theorem tiled_mkNode (b : AABB) (c : V2) (cap : ℕ) : Tiled (mkNode b c cap) := by
  simp [Tiled, mkNode, bnd, ctr]

theorem bnd_mkNode (b : AABB) (c : V2) (cap : ℕ) : bnd (mkNode b c cap) = b := rfl

theorem ctr_mkNode (b : AABB) (c : V2) (cap : ℕ) : ctr (mkNode b c cap) = c := rfl

theorem storedObjs_mkNode (b : AABB) (c : V2) (cap : ℕ) : storedObjs (mkNode b c cap) = [] :=
  rfl

theorem nonnegB_of_child {t : QT} {b : AABB} (hb : bnd t = ⟨childHalfsize b⟩)
    (hx : 0 ≤ b.halfsize.x) (hy : 0 ≤ b.halfsize.y) : NonnegB t := by
  unfold NonnegB
  rw [hb]
  dsimp only [childHalfsize]
  constructor <;> linarith

theorem posB_of_child {t : QT} {b : AABB} (hb : bnd t = ⟨childHalfsize b⟩)
    (hx : 0 < b.halfsize.x) (hy : 0 < b.halfsize.y) :
    0 < (bnd t).halfsize.x ∧ 0 < (bnd t).halfsize.y := by
  rw [hb]
  dsimp only [childHalfsize]
  constructor <;> linarith

theorem collides_up_child {b : AABB} {c : V2} {X : AABB} {xp : V2} {cx cy : ℚ}
    (hbx : 0 ≤ b.halfsize.x) (hby : 0 ≤ b.halfsize.y)
    (hcx : cx = c.x - (childHalfsize b).x ∨ cx = c.x + (childHalfsize b).x)
    (hcy : cy = c.y - (childHalfsize b).y ∨ cy = c.y + (childHalfsize b).y)
    (h : collides ⟨childHalfsize b⟩ ⟨cx, cy⟩ X xp) :
    collides b c X xp := by
  rcases hcx with hx | hx <;> rcases hcy with hy | hy <;> subst hx <;> subst hy <;>
    dsimp only [collides, childHalfsize] at h ⊢ <;>
    obtain ⟨h1, h2, h3, h4⟩ := h <;>
    exact ⟨by linarith, by linarith, by linarith, by linarith⟩

theorem mem_leavesL_node {b : AABB} {c : V2} {cap : ℕ} {nw ne sw se : QT}
    {L : AABB × V2 × List Obj} :
    L ∈ leavesL (QT.node b c cap nw ne sw se)
      ↔ L ∈ leavesL nw ∨ L ∈ leavesL ne ∨ L ∈ leavesL sw ∨ L ∈ leavesL se := by
  simp [leavesL, List.mem_append]

theorem mem_storedObjs_node {b : AABB} {c : V2} {cap : ℕ} {nw ne sw se : QT} {x : Obj} :
    x ∈ storedObjs (QT.node b c cap nw ne sw se)
      ↔ x ∈ storedObjs nw ∨ x ∈ storedObjs ne ∨ x ∈ storedObjs sw ∨ x ∈ storedObjs se := by
  simp [storedObjs, List.mem_append]

theorem mem_storedObjs_of_leaf : ∀ (t : QT) (L : AABB × V2 × List Obj),
    L ∈ leavesL t → ∀ x ∈ L.2.2, x ∈ storedObjs t := by
  intro t
  induction t with
  | leaf b c cap objs =>
    intro L hL x hx
    simp only [leavesL, List.mem_cons, List.not_mem_nil, or_false] at hL
    subst hL
    exact hx
  | node b c cap nw ne sw se ihnw ihne ihsw ihse =>
    intro L hL x hx
    rw [mem_leavesL_node] at hL
    rw [mem_storedObjs_node]
    rcases hL with h | h | h | h
    · exact Or.inl (ihnw L h x hx)
    · exact Or.inr (Or.inl (ihne L h x hx))
    · exact Or.inr (Or.inr (Or.inl (ihsw L h x hx)))
    · exact Or.inr (Or.inr (Or.inr (ihse L h x hx)))

theorem storedE_children {b : AABB} {c : V2} {cap : ℕ} {nw ne sw se : QT} {f : Obj}
    (h : StoredE (QT.node b c cap nw ne sw se) f) :
    StoredE nw f ∧ StoredE ne f ∧ StoredE sw f ∧ StoredE se f := by
  refine ⟨fun L hL => h L ?_, fun L hL => h L ?_, fun L hL => h L ?_, fun L hL => h L ?_⟩ <;>
    rw [mem_leavesL_node] <;> tauto

theorem collides_up : ∀ (t : QT), Tiled t → NonnegB t →
    ∀ L ∈ leavesL t, ∀ (X : AABB) (xp : V2), collides L.1 L.2.1 X xp →
    collides (bnd t) (ctr t) X xp := by
  intro t
  induction t with
  | leaf b c cap objs =>
    intro _ _ L hL X xp h
    simp only [leavesL, List.mem_cons, List.not_mem_nil, or_false] at hL
    subst hL
    exact h
  | node b c cap nw ne sw se ihnw ihne ihsw ihse =>
    intro ht hn L hL X xp h
    obtain ⟨⟨hbnw, hcnw⟩, ⟨hbne, hcne⟩, ⟨hbsw, hcsw⟩, ⟨hbse, hcse⟩, tnw, tne, tsw, tse⟩ := ht
    have hnx : 0 ≤ b.halfsize.x := hn.1
    have hny : 0 ≤ b.halfsize.y := hn.2
    rw [mem_leavesL_node] at hL
    rcases hL with hL | hL | hL | hL
    · have hup := ihnw tnw (nonnegB_of_child hbnw hnx hny) L hL X xp h
      rw [hbnw, hcnw] at hup
      exact collides_up_child hnx hny (Or.inl rfl) (Or.inr rfl) hup
    · have hup := ihne tne (nonnegB_of_child hbne hnx hny) L hL X xp h
      rw [hbne, hcne] at hup
      exact collides_up_child hnx hny (Or.inr rfl) (Or.inr rfl) hup
    · have hup := ihsw tsw (nonnegB_of_child hbsw hnx hny) L hL X xp h
      rw [hbsw, hcsw] at hup
      exact collides_up_child hnx hny (Or.inl rfl) (Or.inl rfl) hup
    · have hup := ihse tse (nonnegB_of_child hbse hnx hny) L hL X xp h
      rw [hbse, hcse] at hup
      exact collides_up_child hnx hny (Or.inr rfl) (Or.inl rfl) hup

theorem collides_split {b : AABB} {c : V2} {X : AABB} {xp : V2}
    (hex : 0 < X.halfsize.x) (hey : 0 < X.halfsize.y)
    (h : collides b c X xp) :
    collides ⟨childHalfsize b⟩ ⟨c.x - (childHalfsize b).x, c.y + (childHalfsize b).y⟩ X xp
      ∨ collides ⟨childHalfsize b⟩ ⟨c.x + (childHalfsize b).x, c.y + (childHalfsize b).y⟩ X xp
      ∨ collides ⟨childHalfsize b⟩ ⟨c.x - (childHalfsize b).x, c.y - (childHalfsize b).y⟩ X xp
      ∨ collides ⟨childHalfsize b⟩ ⟨c.x + (childHalfsize b).x, c.y - (childHalfsize b).y⟩
          X xp := by
  dsimp only [collides, childHalfsize] at h ⊢
  obtain ⟨h1, h2, h3, h4⟩ := h
  by_cases hx : xp.x - X.halfsize.x < c.x <;> by_cases hy : xp.y - X.halfsize.y < c.y
  · exact Or.inr (Or.inr (Or.inl ⟨by linarith, by linarith, by linarith, by linarith⟩))
  · exact Or.inl ⟨by linarith, by linarith, by linarith, by linarith⟩
  · exact Or.inr (Or.inr (Or.inr ⟨by linarith, by linarith, by linarith, by linarith⟩))
  · exact Or.inr (Or.inl ⟨by linarith, by linarith, by linarith, by linarith⟩)

theorem triColl_collides_fst {b : AABB} {c : V2} {A : AABB} {ap : V2} {B : AABB} {bp : V2}
    (h : triColl b c A ap B bp) : collides b c A ap := by
  simp only [triColl, max_lt_iff, lt_min_iff, and_assoc] at h
  obtain ⟨hadx, hbdx, hcdx, haex, hbex, hcex, hafx, hbfx, hcfx,
    hady, hbdy, hcdy, haey, hbey, hcey, hafy, hbfy, hcfy⟩ := h
  exact ⟨hcdx, by linarith, by linarith, hcdy⟩

theorem triColl_collides_snd {b : AABB} {c : V2} {A : AABB} {ap : V2} {B : AABB} {bp : V2}
    (h : triColl b c A ap B bp) : collides b c B bp := by
  simp only [triColl, max_lt_iff, lt_min_iff, and_assoc] at h
  obtain ⟨hadx, hbdx, hcdx, haex, hbex, hcex, hafx, hbfx, hcfx,
    hady, hbdy, hcdy, haey, hbey, hcey, hafy, hbfy, hcfy⟩ := h
  exact ⟨hcex, by linarith, by linarith, hcey⟩

theorem triColl_child {b : AABB} {c : V2} {A : AABB} {ap : V2} {B : AABB} {bp : V2}
    (hbx : 0 < b.halfsize.x) (hby : 0 < b.halfsize.y)
    (h : triColl b c A ap B bp) :
    ∃ cx cy : ℚ,
      (cx = c.x - (childHalfsize b).x ∨ cx = c.x + (childHalfsize b).x)
        ∧ (cy = c.y - (childHalfsize b).y ∨ cy = c.y + (childHalfsize b).y)
        ∧ triColl ⟨childHalfsize b⟩ ⟨cx, cy⟩ A ap B bp := by
  simp only [triColl, max_lt_iff, lt_min_iff, and_assoc] at h
  obtain ⟨hadx, hbdx, hcdx, haex, hbex, hcex, hafx, hbfx, hcfx,
    hady, hbdy, hcdy, haey, hbey, hcey, hafy, hbfy, hcfy⟩ := h
  by_cases hxc : ap.x - A.halfsize.x < c.x ∧ bp.x - B.halfsize.x < c.x <;>
    by_cases hyc : ap.y - A.halfsize.y < c.y ∧ bp.y - B.halfsize.y < c.y
  · refine ⟨c.x - (childHalfsize b).x, c.y - (childHalfsize b).y, Or.inl rfl, Or.inl rfl, ?_⟩
    simp only [triColl, max_lt_iff, lt_min_iff, and_assoc]
    dsimp only [childHalfsize]
    obtain ⟨hx1, hx2⟩ := hxc
    obtain ⟨hy1, hy2⟩ := hyc
    refine ⟨?_, ?_, ?_, ?_, ?_, ?_, ?_, ?_, ?_, ?_, ?_, ?_, ?_, ?_, ?_, ?_, ?_, ?_⟩ <;>
      linarith
  · refine ⟨c.x - (childHalfsize b).x, c.y + (childHalfsize b).y, Or.inl rfl, Or.inr rfl, ?_⟩
    simp only [triColl, max_lt_iff, lt_min_iff, and_assoc]
    dsimp only [childHalfsize]
    obtain ⟨hx1, hx2⟩ := hxc
    rcases not_and_or.mp hyc with hy | hy <;> push_neg at hy <;>
      refine ⟨?_, ?_, ?_, ?_, ?_, ?_, ?_, ?_, ?_, ?_, ?_, ?_, ?_, ?_, ?_, ?_, ?_, ?_⟩ <;>
      linarith
  · refine ⟨c.x + (childHalfsize b).x, c.y - (childHalfsize b).y, Or.inr rfl, Or.inl rfl, ?_⟩
    simp only [triColl, max_lt_iff, lt_min_iff, and_assoc]
    dsimp only [childHalfsize]
    obtain ⟨hy1, hy2⟩ := hyc
    rcases not_and_or.mp hxc with hx | hx <;> push_neg at hx <;>
      refine ⟨?_, ?_, ?_, ?_, ?_, ?_, ?_, ?_, ?_, ?_, ?_, ?_, ?_, ?_, ?_, ?_, ?_, ?_⟩ <;>
      linarith
  · refine ⟨c.x + (childHalfsize b).x, c.y + (childHalfsize b).y, Or.inr rfl, Or.inr rfl, ?_⟩
    simp only [triColl, max_lt_iff, lt_min_iff, and_assoc]
    dsimp only [childHalfsize]
    rcases not_and_or.mp hxc with hx | hx <;> push_neg at hx <;>
      rcases not_and_or.mp hyc with hy | hy <;> push_neg at hy <;>
      refine ⟨?_, ?_, ?_, ?_, ?_, ?_, ?_, ?_, ?_, ?_, ?_, ?_, ?_, ?_, ?_, ?_, ?_, ?_⟩ <;>
      linarith

theorem descent : ∀ (t : QT), Tiled t →
    0 < (bnd t).halfsize.x → 0 < (bnd t).halfsize.y →
    ∀ (A : AABB) (ap : V2) (B : AABB) (bp : V2), triColl (bnd t) (ctr t) A ap B bp →
    ∃ L ∈ leavesL t, collides L.1 L.2.1 A ap ∧ collides L.1 L.2.1 B bp := by
  intro t
  induction t with
  | leaf b c cap objs =>
    intro _ _ _ A ap B bp h
    exact ⟨(b, c, objs), by simp [leavesL], triColl_collides_fst h, triColl_collides_snd h⟩
  | node b c cap nw ne sw se ihnw ihne ihsw ihse =>
    intro ht hpx hpy A ap B bp h
    dsimp only [bnd, ctr] at hpx hpy h
    obtain ⟨⟨hbnw, hcnw⟩, ⟨hbne, hcne⟩, ⟨hbsw, hcsw⟩, ⟨hbse, hcse⟩, tnw, tne, tsw, tse⟩ := ht
    obtain ⟨cx, cy, hcx, hcy, hch⟩ := triColl_child hpx hpy h
    have hchx : 0 < (childHalfsize b).x := by dsimp only [childHalfsize]; linarith
    have hchy : 0 < (childHalfsize b).y := by dsimp only [childHalfsize]; linarith
    rcases hcx with hcx | hcx <;> rcases hcy with hcy | hcy
    · subst hcx; subst hcy
      have hsub := ihsw tsw (by rw [hbsw]; exact hchx) (by rw [hbsw]; exact hchy) A ap B bp
        (by rw [hbsw, hcsw]; exact hch)
      obtain ⟨L, hL, h1, h2⟩ := hsub
      exact ⟨L, mem_leavesL_node.mpr (Or.inr (Or.inr (Or.inl hL))), h1, h2⟩
    · subst hcx; subst hcy
      have hsub := ihnw tnw (by rw [hbnw]; exact hchx) (by rw [hbnw]; exact hchy) A ap B bp
        (by rw [hbnw, hcnw]; exact hch)
      obtain ⟨L, hL, h1, h2⟩ := hsub
      exact ⟨L, mem_leavesL_node.mpr (Or.inl hL), h1, h2⟩
    · subst hcx; subst hcy
      have hsub := ihse tse (by rw [hbse]; exact hchx) (by rw [hbse]; exact hchy) A ap B bp
        (by rw [hbse, hcse]; exact hch)
      obtain ⟨L, hL, h1, h2⟩ := hsub
      exact ⟨L, mem_leavesL_node.mpr (Or.inr (Or.inr (Or.inr hL))), h1, h2⟩
    · subst hcx; subst hcy
      have hsub := ihne tne (by rw [hbne]; exact hchx) (by rw [hbne]; exact hchy) A ap B bp
        (by rw [hbne, hcne]; exact hch)
      obtain ⟨L, hL, h1, h2⟩ := hsub
      exact ⟨L, mem_leavesL_node.mpr (Or.inr (Or.inl hL)), h1, h2⟩

theorem queryF_sub : ∀ (t : QT) (range : AABB) (pos : V2) (acc : List ℕ) (x : ℕ),
    x ∈ acc → x ∈ queryF t range pos acc := by
  intro t
  induction t with
  | leaf b c cap objs =>
    intro range pos acc x hx
    unfold queryF
    split_ifs
    · exact List.mem_append_left _ hx
    · exact hx
  | node b c cap nw ne sw se ihnw ihne ihsw ihse =>
    intro range pos acc x hx
    unfold queryF
    split_ifs
    · exact ihse _ _ _ _ (ihsw _ _ _ _ (ihne _ _ _ _ (ihnw _ _ _ _ hx)))
    · exact hx

theorem queryF_complete : ∀ (t : QT), Tiled t → NonnegB t →
    ∀ L ∈ leavesL t, ∀ (range : AABB) (pos : V2), collides L.1 L.2.1 range pos →
    ∀ e ∈ L.2.2, ∀ acc, e.id ∈ queryF t range pos acc := by
  intro t
  induction t with
  | leaf b c cap objs =>
    intro _ _ L hL range pos hcoll e he acc
    simp only [leavesL, List.mem_cons, List.not_mem_nil, or_false] at hL
    subst hL
    unfold queryF
    rw [if_pos hcoll]
    exact List.mem_append_right _ (List.mem_map.mpr ⟨e, he, rfl⟩)
  | node b c cap nw ne sw se ihnw ihne ihsw ihse =>
    intro ht hn L hL range pos hcoll e he acc
    have hcn : collides b c range pos := by
      have := collides_up (QT.node b c cap nw ne sw se) ht hn L hL range pos hcoll
      exact this
    obtain ⟨⟨hbnw, hcnw⟩, ⟨hbne, hcne⟩, ⟨hbsw, hcsw⟩, ⟨hbse, hcse⟩, tnw, tne, tsw, tse⟩ := ht
    have hnx : 0 ≤ b.halfsize.x := hn.1
    have hny : 0 ≤ b.halfsize.y := hn.2
    rw [mem_leavesL_node] at hL
    unfold queryF
    rw [if_pos hcn]
    rcases hL with hL | hL | hL | hL
    · exact queryF_sub _ _ _ _ _ (queryF_sub _ _ _ _ _ (queryF_sub _ _ _ _ _
        (ihnw tnw (nonnegB_of_child hbnw hnx hny) L hL range pos hcoll e he acc)))
    · exact queryF_sub _ _ _ _ _ (queryF_sub _ _ _ _ _
        (ihne tne (nonnegB_of_child hbne hnx hny) L hL range pos hcoll e he _))
    · exact queryF_sub _ _ _ _ _
        (ihsw tsw (nonnegB_of_child hbsw hnx hny) L hL range pos hcoll e he _)
    · exact ihse tse (nonnegB_of_child hbse hnx hny) L hL range pos hcoll e he _

theorem some_pair_inj {A B : Type} {a a' : A} {b b' : B}
    (h : (some (a, b) : Option (A × B)) = some (a', b')) : a = a' ∧ b = b' := by
  simp only [Option.some.injEq, Prod.mk.injEq] at h
  exact h

set_option maxHeartbeats 2000000 in
theorem masterP : ∀ n : ℕ, InsP n ∧ Ins4P n ∧ RedP n := by
  intro n
  induction n using Nat.strong_induction_on with
  | _ n ih =>
    have hIns : InsP n := by
      cases n with
      | zero =>
        intro t e t1 r h
        rw [insertF_zero] at h
        exact Option.noConfusion h
      | succ m =>
        intro t e t1 r h ht hn
        cases t with
        | leaf b c cap objs =>
          by_cases hc : collides b c e.box e.pos
          · by_cases hlen : objs.length < cap
            · rw [insertF_push hc hlen] at h
              obtain ⟨h1, h2⟩ := some_pair_inj h
              subst h1
              subst h2
              refine ⟨rfl, rfl, rfl, trivial, fun hh => hh.elim, ?_, ?_, ?_, ?_, ?_⟩
              · intro L hL hcoll
                simp only [leavesL, List.mem_cons, List.not_mem_nil, or_false] at hL
                subst hL
                exact List.mem_append_right _ (by simp)
              · intro f hf L hL hcoll
                simp only [leavesL, List.mem_cons, List.not_mem_nil, or_false] at hL
                subst hL
                exact List.mem_append_left _ (hf (b, c, objs) (by simp [leavesL]) hcoll)
              · intro x hx
                rcases List.mem_append.mp hx with hx | hx
                · exact Or.inl hx
                · simp only [List.mem_cons, List.not_mem_nil, or_false] at hx
                  exact Or.inr hx
              · intro hnc
                exact absurd hc hnc
              · intro _ _ _ _ _
                rfl
            · rcases hr : redistF m (mkNode b c cap) objs with _ | t2
              · rw [insertF_full_none hc hlen hr] at h
                exact Option.noConfusion h
              · rw [insertF_full_some hc hlen hr] at h
                obtain ⟨hb2, hc2, hcap2, ht2, hisn2, hpres2, hstored2, hsub2⟩ :=
                  (ih m (Nat.lt_succ_self m)).2.2 objs (mkNode b c cap) t2 hr
                    (tiled_mkNode b c cap) hn
                have hb2' : bnd t2 = b := hb2
                have hc2' : ctr t2 = c := hc2
                have hn2 : NonnegB t2 := ⟨by rw [hb2']; exact hn.1, by rw [hb2']; exact hn.2⟩
                obtain ⟨hb1, hc1, hcap1, ht1, hisn1, hstE1, hpres1, hsub1, hrtrue⟩ :=
                  (ih m (Nat.lt_succ_self m)).2.1 t2 e t1 r h (hisn2 trivial) ht2 hn2
                have hbf : bnd t1 = b := hb1.trans hb2'
                have hcf : ctr t1 = c := hc1.trans hc2'
                refine ⟨hbf, hcf, hcap1.trans hcap2, ht1, fun hh => hh.elim, hstE1,
                  ?_, ?_, ?_, ?_⟩
                · intro f hf
                  by_cases hcof : collides b c f.box f.pos
                  · have hfobjs : f ∈ objs := hf (b, c, objs) (by simp [leavesL]) hcof
                    exact hpres1 f (hstored2 f hfobjs)
                  · intro L hL hcoll
                    exfalso
                    apply hcof
                    have hup := collides_up t1 ht1
                      ⟨by rw [hbf]; exact hn.1, by rw [hbf]; exact hn.2⟩
                      L hL f.box f.pos hcoll
                    rw [hbf, hcf] at hup
                    exact hup
                · intro x hx
                  rcases hsub1 x hx with hx2 | hxe
                  · rcases hsub2 x hx2 with hxm | hxobjs
                    · simp [storedObjs_mkNode] at hxm
                    · exact Or.inl hxobjs
                  · exact Or.inr hxe
                · intro hnc
                  exact absurd hc hnc
                · intro he1 he2 hbx hby hcol
                  exact hrtrue he1 he2 (by rw [hb2']; exact hbx) (by rw [hb2']; exact hby)
                    (by rw [hb2', hc2']; exact hcol)
          · rw [@insertF_nocoll m (QT.leaf b c cap objs) e hc] at h
            obtain ⟨h1, h2⟩ := some_pair_inj h
            subst h1
            subst h2
            refine ⟨rfl, rfl, rfl, trivial, fun hh => hh, ?_, fun f hf => hf,
              fun x hx => Or.inl hx, fun _ => ⟨rfl, rfl⟩, ?_⟩
            · intro L hL hcoll
              simp only [leavesL, List.mem_cons, List.not_mem_nil, or_false] at hL
              subst hL
              exact absurd hcoll hc
            · intro _ _ _ _ hcol
              exact absurd hcol hc
        | node b c cap nw ne sw se =>
          by_cases hc : collides b c e.box e.pos
          · rw [insertF_node_coll hc] at h
            obtain ⟨hb1, hc1, hcap1, ht1, hisn1, hstE1, hpres1, hsub1, hrtrue⟩ :=
              (ih m (Nat.lt_succ_self m)).2.1 (QT.node b c cap nw ne sw se) e t1 r h
                trivial ht hn
            exact ⟨hb1, hc1, hcap1, ht1, fun _ => hisn1, hstE1, hpres1, hsub1,
              fun hnc => absurd hc hnc, hrtrue⟩
          · rw [@insertF_nocoll m (QT.node b c cap nw ne sw se) e hc] at h
            obtain ⟨h1, h2⟩ := some_pair_inj h
            subst h1
            subst h2
            refine ⟨rfl, rfl, rfl, ht, fun hh => hh, ?_, fun f hf => hf,
              fun x hx => Or.inl hx, fun _ => ⟨rfl, rfl⟩, ?_⟩
            · intro L hL hcoll
              exfalso
              apply hc
              exact collides_up (QT.node b c cap nw ne sw se) ht hn L hL e.box e.pos hcoll
            · intro _ _ _ _ hcol
              exact absurd hcol hc
    have hIns4 : Ins4P n := by
      intro t e t1 r h hisn ht hn
      cases t with
      | leaf b c cap objs => exact hisn.elim
      | node b c cap nw ne sw se =>
        obtain ⟨⟨hbnw, hcnw⟩, ⟨hbne, hcne⟩, ⟨hbsw, hcsw⟩, ⟨hbse, hcse⟩, tnw, tne, tsw, tse⟩ :=
          ht
        rcases h1 : insertF n nw e with _ | ⟨nw1, r1⟩
        · rw [insert4F_none1 h1] at h
          exact Option.noConfusion h
        rcases h2 : insertF n ne e with _ | ⟨ne1, r2⟩
        · rw [insert4F_none2 h1 h2] at h
          exact Option.noConfusion h
        rcases h3 : insertF n sw e with _ | ⟨sw1, r3⟩
        · rw [insert4F_none3 h1 h2 h3] at h
          exact Option.noConfusion h
        rcases h4 : insertF n se e with _ | ⟨se1, r4⟩
        · rw [insert4F_none4 h1 h2 h3 h4] at h
          exact Option.noConfusion h
        rw [insert4F_some h1 h2 h3 h4] at h
        obtain ⟨h5, h6⟩ := some_pair_inj h
        subst h5
        subst h6
        have hnnw : NonnegB nw := nonnegB_of_child hbnw hn.1 hn.2
        have hnne : NonnegB ne := nonnegB_of_child hbne hn.1 hn.2
        have hnsw : NonnegB sw := nonnegB_of_child hbsw hn.1 hn.2
        have hnse : NonnegB se := nonnegB_of_child hbse hn.1 hn.2
        obtain ⟨hbnw1, hcnw1, _, htnw1, _, hstnw1, hprnw1, hsbnw1, _, hrtnw1⟩ :=
          hIns nw e nw1 r1 h1 tnw hnnw
        obtain ⟨hbne1, hcne1, _, htne1, _, hstne1, hprne1, hsbne1, _, hrtne1⟩ :=
          hIns ne e ne1 r2 h2 tne hnne
        obtain ⟨hbsw1, hcsw1, _, htsw1, _, hstsw1, hprsw1, hsbsw1, _, hrtsw1⟩ :=
          hIns sw e sw1 r3 h3 tsw hnsw
        obtain ⟨hbse1, hcse1, _, htse1, _, hstse1, hprse1, hsbse1, _, hrtse1⟩ :=
          hIns se e se1 r4 h4 tse hnse
        refine ⟨rfl, rfl, rfl,
          ⟨⟨hbnw1.trans hbnw, hcnw1.trans hcnw⟩, ⟨hbne1.trans hbne, hcne1.trans hcne⟩,
            ⟨hbsw1.trans hbsw, hcsw1.trans hcsw⟩, ⟨hbse1.trans hbse, hcse1.trans hcse⟩,
            htnw1, htne1, htsw1, htse1⟩,
          trivial, ?_, ?_, ?_, ?_⟩
        · intro L hL hcoll
          rcases mem_leavesL_node.mp hL with hL | hL | hL | hL
          · exact hstnw1 L hL hcoll
          · exact hstne1 L hL hcoll
          · exact hstsw1 L hL hcoll
          · exact hstse1 L hL hcoll
        · intro f hf
          obtain ⟨hfnw, hfne, hfsw, hfse⟩ := storedE_children hf
          intro L hL hcoll
          rcases mem_leavesL_node.mp hL with hL | hL | hL | hL
          · exact hprnw1 f hfnw L hL hcoll
          · exact hprne1 f hfne L hL hcoll
          · exact hprsw1 f hfsw L hL hcoll
          · exact hprse1 f hfse L hL hcoll
        · intro x hx
          rcases mem_storedObjs_node.mp hx with hx | hx | hx | hx
          · rcases hsbnw1 x hx with hx | hx
            · exact Or.inl (mem_storedObjs_node.mpr (Or.inl hx))
            · exact Or.inr hx
          · rcases hsbne1 x hx with hx | hx
            · exact Or.inl (mem_storedObjs_node.mpr (Or.inr (Or.inl hx)))
            · exact Or.inr hx
          · rcases hsbsw1 x hx with hx | hx
            · exact Or.inl (mem_storedObjs_node.mpr (Or.inr (Or.inr (Or.inl hx))))
            · exact Or.inr hx
          · rcases hsbse1 x hx with hx | hx
            · exact Or.inl (mem_storedObjs_node.mpr (Or.inr (Or.inr (Or.inr hx))))
            · exact Or.inr hx
        · intro he1 he2 hbx hby hcol
          have hchx : 0 < (childHalfsize b).x := by
            dsimp only [childHalfsize]
            dsimp only [bnd] at hbx
            linarith
          have hchy : 0 < (childHalfsize b).y := by
            dsimp only [childHalfsize]
            dsimp only [bnd] at hby
            linarith
          rcases collides_split he1 he2 hcol with hsp | hsp | hsp | hsp
          · have : r1 = true := hrtnw1 he1 he2 (by rw [hbnw]; exact hchx)
              (by rw [hbnw]; exact hchy) (by rw [hbnw, hcnw]; exact hsp)
            rw [this]
            simp
          · have : r2 = true := hrtne1 he1 he2 (by rw [hbne]; exact hchx)
              (by rw [hbne]; exact hchy) (by rw [hbne, hcne]; exact hsp)
            rw [this]
            simp
          · have : r3 = true := hrtsw1 he1 he2 (by rw [hbsw]; exact hchx)
              (by rw [hbsw]; exact hchy) (by rw [hbsw, hcsw]; exact hsp)
            rw [this]
            simp
          · have : r4 = true := hrtse1 he1 he2 (by rw [hbse]; exact hchx)
              (by rw [hbse]; exact hchy) (by rw [hbse, hcse]; exact hsp)
            rw [this]
            simp
    have hRed : RedP n := by
      intro es
      induction es with
      | nil =>
        intro t t1 h ht hn
        rw [redistF_nil] at h
        simp only [Option.some.injEq] at h
        subst h
        exact ⟨rfl, rfl, rfl, ht, fun hh => hh, fun f hf => hf,
          fun e he => absurd he (List.not_mem_nil e), fun x hx => Or.inl hx⟩
      | cons e es ihes =>
        intro t t1 h ht hn
        rcases hi : insertF n t e with _ | ⟨t2, r2⟩
        · rw [redistF_cons_none hi] at h
          exact Option.noConfusion h
        · rw [redistF_cons_some hi] at h
          obtain ⟨hb2, hc2, hcap2, ht2, hisn2, hstE2, hpres2, hsub2, _, _⟩ :=
            hIns t e t2 r2 hi ht hn
          have hn2 : NonnegB t2 := ⟨by rw [hb2]; exact hn.1, by rw [hb2]; exact hn.2⟩
          obtain ⟨hb1, hc1, hcap1, ht1, hisn1, hpres1, hstored1, hsub1⟩ := ihes t2 t1 h ht2 hn2
          refine ⟨hb1.trans hb2, hc1.trans hc2, hcap1.trans hcap2, ht1,
            fun hh => hisn1 (hisn2 hh), fun f hf => hpres1 f (hpres2 f hf), ?_, ?_⟩
          · intro x hx
            rcases List.mem_cons.mp hx with hxe | hxes
            · subst hxe
              exact hpres1 x hstE2
            · exact hstored1 x hxes
          · intro x hx
            rcases hsub1 x hx with hx2 | hxes
            · rcases hsub2 x hx2 with hxt | hxe
              · exact Or.inl hxt
              · subst hxe
                exact Or.inr (List.mem_cons_self x es)
            · exact Or.inr (List.mem_cons_of_mem e hxes)
    exact ⟨hIns, hIns4, hRed⟩

set_option maxHeartbeats 4000000 in
/-- C1 is false as stated: both entries are successfully inserted (both
flags true) into a capacity-1 tree whose root boundary strictly contains
them, their exact overlap test is true, yet querying with A's box and
position returns the empty list (so B's id is not reported), and A's id is
likewise absent from the query with B's box and position. -/
theorem c1_counterexample :
    buildF 5 (QT.leaf cexRootB cexRootC 1 []) [cexA, cexB] = some (c1Tree, [true, true])
      ∧ contains cexRootB cexRootC cexA.box cexA.pos
      ∧ contains cexRootB cexRootC cexB.box cexB.pos
      ∧ collides cexA.box cexA.pos cexB.box cexB.pos
      ∧ queryF c1Tree cexA.box cexA.pos [] = []
      ∧ cexB.id ∉ queryF c1Tree cexA.box cexA.pos []
      ∧ cexA.id ∉ queryF c1Tree cexB.box cexB.pos [] := by
  refine ⟨?_, ?_, ?_, ?_, ?_, ?_, ?_⟩
  · norm_num [buildF, insertF, insert4F, redistF, mkNode, childHalfsize, collides,
      cexRootB, cexRootC, cexA, cexB, c1Tree]
  · norm_num [contains, cexRootB, cexRootC, cexA]
  · norm_num [contains, cexRootB, cexRootC, cexB]
  · norm_num [collides, cexA, cexB]
  · norm_num [queryF, collides, cexRootB, cexRootC, cexA, cexB, c1Tree]
  · norm_num [queryF, collides, cexRootB, cexRootC, cexA, cexB, c1Tree]
  · norm_num [queryF, collides, cexRootB, cexRootC, cexA, cexB, c1Tree]

set_option maxHeartbeats 4000000 in
/-- C3 is false as stated: three insert calls return true, but walking
every leaf of the resulting tree yields six entries, because the
straddling entry is stored in all four leaves. -/
theorem c3_counterexample :
    buildF 5 (QT.leaf cexRootB cexRootC 2 []) [c3A, c3B, c3C]
        = some (c3Tree, [true, true, true])
      ∧ (storedIds c3Tree).length = 6
      ∧ ([true, true, true].count true = 3)
      ∧ ¬ ((6 : ℕ) = 3) := by
  refine ⟨?_, ?_, ?_, ?_⟩
  · norm_num [buildF, insertF, insert4F, redistF, mkNode, childHalfsize, collides,
      cexRootB, cexRootC, c3A, c3B, c3C, c3Tree]
  · norm_num [storedIds, storedObjs, c3Tree, c3A, c3B, c3C]
  · norm_num
  · norm_num

/-- Everything a whole build guarantees: shape and tiling, preservation
and achievement of stored-everywhere reports, no entries from nowhere,
and — when every entry has positive half-sizes and the root boundary has
positive half-sizes — the returned flags are exactly the root overlap
tests, and every stored entry overlaps the root. -/
theorem buildP (n : ℕ) : ∀ (es : List Obj) (t0 t : QT) (flags : List Bool),
    buildF n t0 es = some (t, flags) → Tiled t0 → NonnegB t0 →
    bnd t = bnd t0 ∧ ctr t = ctr t0 ∧ Tiled t
      ∧ (∀ f, StoredE t0 f → StoredE t f)
      ∧ (∀ e ∈ es, StoredE t e)
      ∧ (∀ x ∈ storedObjs t, x ∈ storedObjs t0 ∨ x ∈ es)
      ∧ ((∀ e ∈ es, 0 < e.box.halfsize.x ∧ 0 < e.box.halfsize.y) →
          0 < (bnd t0).halfsize.x → 0 < (bnd t0).halfsize.y →
          flags = es.map (fun e => decide (collides (bnd t0) (ctr t0) e.box e.pos))
            ∧ ∀ x ∈ storedObjs t,
                x ∈ storedObjs t0 ∨ (x ∈ es ∧ collides (bnd t0) (ctr t0) x.box x.pos)) := by
  intro es
  induction es with
  | nil =>
    intro t0 t flags h ht0 hn0
    rw [buildF_nil] at h
    obtain ⟨h1, h2⟩ := some_pair_inj h
    subst h1
    subst h2
    exact ⟨rfl, rfl, ht0, fun f hf => hf, fun e he => absurd he (List.not_mem_nil e),
      fun x hx => Or.inl hx, fun _ _ _ => ⟨rfl, fun x hx => Or.inl hx⟩⟩
  | cons e es ihes =>
    intro t0 t flags h ht0 hn0
    rcases hi : insertF n t0 e with _ | ⟨t1, r⟩
    · rw [buildF_cons_none hi] at h
      exact Option.noConfusion h
    · rw [buildF_cons_some hi] at h
      rcases hbf : buildF n t1 es with _ | ⟨t2, rs⟩
      · rw [hbf] at h
        exact Option.noConfusion h
      · rw [hbf] at h
        have h' : (some (t2, r :: rs) : Option (QT × List Bool)) = some (t, flags) := h
        obtain ⟨h1, h2⟩ := some_pair_inj h'
        subst h1
        subst h2
        obtain ⟨hb1, hc1, hcap1, htl1, hisn1, hstE, hpres, hsub, hnc, hrtrue⟩ :=
          (masterP n).1 t0 e t1 r hi ht0 hn0
        have hn1 : NonnegB t1 := ⟨by rw [hb1]; exact hn0.1, by rw [hb1]; exact hn0.2⟩
        obtain ⟨ib, ic, itl, ipres, istored, isub, iflag⟩ := ihes t1 t2 rs hbf htl1 hn1
        refine ⟨ib.trans hb1, ic.trans hc1, itl, fun f hf => ipres f (hpres f hf),
          ?_, ?_, ?_⟩
        · intro x hx
          rcases List.mem_cons.mp hx with hxe | hxes
          · subst hxe
            exact ipres x hstE
          · exact istored x hxes
        · intro x hx
          rcases isub x hx with hx1 | hxes
          · rcases hsub x hx1 with hx0 | hxe
            · exact Or.inl hx0
            · subst hxe
              exact Or.inr (List.mem_cons_self x es)
          · exact Or.inr (List.mem_cons_of_mem e hxes)
        · intro hposall hbx hby
          have hbx1 : 0 < (bnd t1).halfsize.x := by rw [hb1]; exact hbx
          have hby1 : 0 < (bnd t1).halfsize.y := by rw [hb1]; exact hby
          obtain ⟨hfl, hmem⟩ :=
            iflag (fun e' he' => hposall e' (List.mem_cons_of_mem e he')) hbx1 hby1
          rw [hb1, hc1] at hfl hmem
          by_cases hce : collides (bnd t0) (ctr t0) e.box e.pos
          · have hrt : r = true := hrtrue (hposall e (List.mem_cons_self e es)).1
              (hposall e (List.mem_cons_self e es)).2 hbx hby hce
            constructor
            · rw [List.map_cons, hrt, hfl, decide_eq_true hce]
            · intro x hx
              rcases hmem x hx with hx1 | ⟨hxes, hxcol⟩
              · rcases hsub x hx1 with hx0 | hxe
                · exact Or.inl hx0
                · subst hxe
                  exact Or.inr ⟨List.mem_cons_self x es, hce⟩
              · exact Or.inr ⟨List.mem_cons_of_mem e hxes, hxcol⟩
          · obtain ⟨ht1eq, hrf⟩ := hnc hce
            constructor
            · rw [List.map_cons, hrf, hfl, decide_eq_false hce]
            · intro x hx
              rcases hmem x hx with hx1 | ⟨hxes, hxcol⟩
              · rw [ht1eq] at hx1
                exact Or.inl hx1
              · exact Or.inr ⟨List.mem_cons_of_mem e hxes, hxcol⟩

theorem contains_pos {rb : AABB} {rc : V2} {box : AABB} {pos : V2}
    (hc : contains rb rc box pos) (hx : 0 < box.halfsize.x) (hy : 0 < box.halfsize.y) :
    0 < rb.halfsize.x ∧ 0 < rb.halfsize.y := by
  obtain ⟨h1, h2, h3, h4⟩ := hc
  constructor <;> linarith

theorem triColl_of_contains {rb : AABB} {rc : V2} {A : AABB} {ap : V2} {B : AABB} {bp : V2}
    (hA : contains rb rc A ap) (hB : contains rb rc B bp)
    (hax : 0 < A.halfsize.x) (hay : 0 < A.halfsize.y)
    (hbx : 0 < B.halfsize.x) (hby : 0 < B.halfsize.y)
    (hAB : collides A ap B bp) :
    triColl rb rc A ap B bp := by
  obtain ⟨a1, a2, a3, a4⟩ := hA
  obtain ⟨b1, b2, b3, b4⟩ := hB
  obtain ⟨d1, d2, d3, d4⟩ := hAB
  simp only [triColl, max_lt_iff, lt_min_iff, and_assoc]
  refine ⟨?_, ?_, ?_, ?_, ?_, ?_, ?_, ?_, ?_, ?_, ?_, ?_, ?_, ?_, ?_, ?_, ?_, ?_⟩ <;>
    linarith

theorem triColl_self {rb : AABB} {rc : V2} {X : AABB} {xp : V2}
    (hx : 0 < X.halfsize.x) (hy : 0 < X.halfsize.y)
    (hrx : 0 < rb.halfsize.x) (hry : 0 < rb.halfsize.y)
    (hc : collides rb rc X xp) :
    triColl rb rc X xp X xp := by
  obtain ⟨d1, d2, d3, d4⟩ := hc
  simp only [triColl, max_lt_iff, lt_min_iff, and_assoc]
  refine ⟨?_, ?_, ?_, ?_, ?_, ?_, ?_, ?_, ?_, ?_, ?_, ?_, ?_, ?_, ?_, ?_, ?_, ?_⟩ <;>
    linarith

theorem count_true_map (p : Obj → Bool) (es : List Obj) :
    (es.map p).count true = (es.filter p).length := by
  induction es with
  | nil => rfl
  | cons e es ih =>
    cases hp : p e <;> simp [List.count_cons, List.filter_cons, hp, ih]

set_option maxHeartbeats 1000000 in
/-- C1 (amended): the superset property holds once the degenerate entries
are excluded.  For entries whose boxes have strictly positive half-sizes
on both axes, all strictly contained in the root boundary, a completed
build reports every true pairwise overlap: querying with A's box and
position yields B's id and vice versa.  (As stated the claim is false —
see the counterexample with a zero-width box on the subdivision line.) -/
theorem c1_amended (n cap : ℕ) (rootB : AABB) (rootC : V2) (es : List Obj)
    (t : QT) (flags : List Bool)
    (hb : buildF n (QT.leaf rootB rootC cap []) es = some (t, flags))
    (hpos : ∀ e ∈ es, 0 < e.box.halfsize.x ∧ 0 < e.box.halfsize.y)
    (hcont : ∀ e ∈ es, contains rootB rootC e.box e.pos)
    (A B : Obj) (hA : A ∈ es) (hB : B ∈ es)
    (hAB : collides A.box A.pos B.box B.pos) :
    B.id ∈ queryF t A.box A.pos [] ∧ A.id ∈ queryF t B.box B.pos [] := by
  have hroot := contains_pos (hcont A hA) (hpos A hA).1 (hpos A hA).2
  obtain ⟨hbnd, hctr, htl, _, hstored, _, _⟩ :=
    buildP n es (QT.leaf rootB rootC cap []) t flags hb trivial
      ⟨le_of_lt hroot.1, le_of_lt hroot.2⟩
  have hbnd' : bnd t = rootB := hbnd
  have hctr' : ctr t = rootC := hctr
  have htri : triColl rootB rootC A.box A.pos B.box B.pos :=
    triColl_of_contains (hcont A hA) (hcont B hB) (hpos A hA).1 (hpos A hA).2
      (hpos B hB).1 (hpos B hB).2 hAB
  have htri' : triColl (bnd t) (ctr t) A.box A.pos B.box B.pos := by
    rw [hbnd', hctr']
    exact htri
  obtain ⟨L, hL, hLA, hLB⟩ := descent t htl (by rw [hbnd']; exact hroot.1)
    (by rw [hbnd']; exact hroot.2) A.box A.pos B.box B.pos htri'
  have hnt : NonnegB t :=
    ⟨by rw [hbnd']; exact le_of_lt hroot.1, by rw [hbnd']; exact le_of_lt hroot.2⟩
  exact ⟨queryF_complete t htl hnt L hL A.box A.pos hLA B (hstored B hB L hL hLB) [],
    queryF_complete t htl hnt L hL B.box B.pos hLB A (hstored A hA L hL hLA) []⟩

set_option maxHeartbeats 1000000 in
/-- Witness for the amended C1 at a concrete build: two positive
overlapping boxes inside a (100,100) root; each query reports the other's
id. -/
theorem c1_amended_witness :
    wTreeB.id ∈ queryF wTree wTreeA.box wTreeA.pos []
      ∧ wTreeA.id ∈ queryF wTree wTreeB.box wTreeB.pos [] :=
  c1_amended 1 2 ⟨⟨100, 100⟩⟩ ⟨0, 0⟩ [wTreeA, wTreeB] wTree [true, true]
    (by norm_num [buildF, insertF, insert4F, redistF, mkNode, childHalfsize, collides,
      wTreeA, wTreeB, wTree])
    (by intro e he
        simp only [List.mem_cons, List.not_mem_nil, or_false] at he
        rcases he with rfl | rfl <;> norm_num [wTreeA, wTreeB])
    (by intro e he
        simp only [List.mem_cons, List.not_mem_nil, or_false] at he
        rcases he with rfl | rfl <;> norm_num [contains, wTreeA, wTreeB])
    wTreeA wTreeB (by simp) (by simp)
    (by norm_num [collides, wTreeA, wTreeB])

set_option maxHeartbeats 1000000 in
/-- C3 (amended): conservation holds for the number of distinct ids.  For
entries with pairwise distinct ids and strictly positive box half-sizes
inserted into a fresh tree with strictly positive root half-sizes, the
number of distinct ids reachable by walking every leaf equals the number
of insert calls that returned true.  (As stated the claim is false — an
entry straddling a subdivision line is stored in several leaves, so the
raw walk over-counts; see the counterexample.) -/
theorem c3_amended (n cap : ℕ) (rootB : AABB) (rootC : V2) (es : List Obj)
    (t : QT) (flags : List Bool)
    (hb : buildF n (QT.leaf rootB rootC cap []) es = some (t, flags))
    (hrx : 0 < rootB.halfsize.x) (hry : 0 < rootB.halfsize.y)
    (hpos : ∀ e ∈ es, 0 < e.box.halfsize.x ∧ 0 < e.box.halfsize.y)
    (hnodup : (es.map Obj.id).Nodup) :
    (storedIds t).toFinset.card = flags.count true := by
  obtain ⟨hbnd, hctr, htl, _, hstored, _, hflag⟩ :=
    buildP n es (QT.leaf rootB rootC cap []) t flags hb trivial
      ⟨le_of_lt hrx, le_of_lt hry⟩
  have hbnd' : bnd t = rootB := hbnd
  have hctr' : ctr t = rootC := hctr
  obtain ⟨hfl, hmem⟩ := hflag hpos hrx hry
  dsimp only [bnd, ctr, storedObjs] at hfl hmem
  simp only [List.not_mem_nil, false_or] at hmem
  have hmemrev : ∀ x, x ∈ es → collides rootB rootC x.box x.pos → x ∈ storedObjs t := by
    intro x hxes hxcol
    have htc := triColl_self (hpos x hxes).1 (hpos x hxes).2 hrx hry hxcol
    have htc' : triColl (bnd t) (ctr t) x.box x.pos x.box x.pos := by
      rw [hbnd', hctr']
      exact htc
    obtain ⟨L, hL, hLx, _⟩ := descent t htl (by rw [hbnd']; exact hrx)
      (by rw [hbnd']; exact hry) x.box x.pos x.box x.pos htc'
    exact mem_storedObjs_of_leaf t L hL x (hstored x hxes L hL hLx)
  have hsetEq : (storedIds t).toFinset
      = ((es.filter (fun e => decide (collides rootB rootC e.box e.pos))).map
          Obj.id).toFinset := by
    ext a
    simp only [List.mem_toFinset, storedIds, List.mem_map, List.mem_filter,
      decide_eq_true_eq]
    constructor
    · rintro ⟨x, hx, rfl⟩
      exact ⟨x, ⟨(hmem x hx).1, (hmem x hx).2⟩, rfl⟩
    · rintro ⟨x, ⟨hxes, hxcol⟩, rfl⟩
      exact ⟨x, hmemrev x hxes hxcol, rfl⟩
  have hnodupF : ((es.filter (fun e => decide (collides rootB rootC e.box e.pos))).map
      Obj.id).Nodup :=
    hnodup.sublist ((List.filter_sublist es).map Obj.id)
  rw [hsetEq, List.toFinset_card_of_nodup hnodupF, List.length_map, hfl, count_true_map]

set_option maxHeartbeats 1000000 in
/-- Witness for the amended C3 at a concrete build: two distinct-id
positive entries inserted into a fresh capacity-2 tree give two distinct
stored ids and two true flags. -/
theorem c3_amended_witness :
    (storedIds wTree).toFinset.card = [true, true].count true :=
  c3_amended 1 2 ⟨⟨100, 100⟩⟩ ⟨0, 0⟩ [wTreeA, wTreeB] wTree [true, true]
    (by norm_num [buildF, insertF, insert4F, redistF, mkNode, childHalfsize, collides,
      wTreeA, wTreeB, wTree])
    (by norm_num) (by norm_num)
    (by intro e he
        simp only [List.mem_cons, List.not_mem_nil, or_false] at he
        rcases he with rfl | rfl <;> norm_num [wTreeA, wTreeB])
    (by simp [wTreeA, wTreeB])

theorem resolveAgainst_length (a : Body) (bs : List Body) :
    (resolveAgainst a bs).2.length = bs.length := by
  induction bs generalizing a with
  | nil => rfl
  | cons b bs ih => simp [resolveAgainst, ih]

/-! A generic pointwise-preservation principle for the pair loop: any
relation that is reflexive, transitive and preserved by both sides of
pairStep relates each input body to the output body at the same index. -/
theorem resolveAgainst_rel (R : Body → Body → Prop)
    (hR1 : ∀ a b, R a (pairStep a b).1) (hR2 : ∀ a b, R b (pairStep a b).2)
    (hrefl : ∀ x, R x x) (htrans : ∀ x y z, R x y → R y z → R x z) :
    ∀ (bs : List Body) (a : Body),
      R a (resolveAgainst a bs).1
        ∧ ∀ i x, bs.get? i = some x →
            ∃ y, (resolveAgainst a bs).2.get? i = some y ∧ R x y := by
  intro bs
  induction bs with
  | nil =>
    intro a
    refine ⟨hrefl a, ?_⟩
    intro i x hx
    simp at hx
  | cons b bs ih =>
    intro a
    refine ⟨?_, ?_⟩
    · exact htrans _ _ _ (hR1 a b) ((ih (pairStep a b).1).1)
    · intro i x hx
      cases i with
      | zero =>
        simp only [List.get?] at hx
        cases hx
        exact ⟨(pairStep a b).2, by simp [resolveAgainst], hR2 a b⟩
      | succ i =>
        simp only [List.get?] at hx
        obtain ⟨y, hy, hxy⟩ := (ih (pairStep a b).1).2 i x hx
        exact ⟨y, by simpa [resolveAgainst] using hy, hxy⟩

theorem pairsLoop_rel (R : Body → Body → Prop)
    (hR1 : ∀ a b, R a (pairStep a b).1) (hR2 : ∀ a b, R b (pairStep a b).2)
    (hrefl : ∀ x, R x x) (htrans : ∀ x y z, R x y → R y z → R x z) :
    ∀ (l : List Body) (i : ℕ) (x : Body), l.get? i = some x →
      ∃ y, (pairsLoop l).get? i = some y ∧ R x y := by
  suffices h : ∀ (nlen : ℕ) (l : List Body), l.length = nlen →
      ∀ (i : ℕ) (x : Body), l.get? i = some x →
        ∃ y, (pairsLoop l).get? i = some y ∧ R x y by
    intro l
    exact h l.length l rfl
  intro nlen
  induction nlen using Nat.strong_induction_on with
  | _ nlen ihl =>
    intro l hl i x hx
    cases l with
    | nil => simp at hx
    | cons a rest =>
      cases i with
      | zero =>
        simp only [List.get?] at hx
        cases hx
        refine ⟨(resolveAgainst x rest).1, by simp [pairsLoop], ?_⟩
        exact (resolveAgainst_rel R hR1 hR2 hrefl htrans rest x).1
      | succ i =>
        simp only [List.get?] at hx
        obtain ⟨y, hy, hxy⟩ := (resolveAgainst_rel R hR1 hR2 hrefl htrans rest a).2 i x hx
        have hlt : (resolveAgainst a rest).2.length < nlen := by
          rw [resolveAgainst_length]
          simp only [List.length_cons] at hl
          omega
        obtain ⟨z, hz, hyz⟩ := ihl (resolveAgainst a rest).2.length hlt
          (resolveAgainst a rest).2 rfl i y hy
        exact ⟨z, by simpa [pairsLoop] using hz, htrans _ _ _ hxy hyz⟩

theorem collisions_rel (R : Body → Body → Prop)
    (hR1 : ∀ a b, R a (pairStep a b).1) (hR2 : ∀ a b, R b (pairStep a b).2)
    (hrefl : ∀ x, R x x) (htrans : ∀ x y z, R x y → R y z → R x z)
    (hclear : ∀ q : Body, R q (q.1, clearState q.2)) :
    ∀ (bodies : List Body) (i : ℕ) (x : Body), bodies.get? i = some x →
      ∃ y, (collisions bodies).get? i = some y ∧ R x y := by
  intro bodies i x hx
  have hmap : (bodies.map (fun q => (q.1, clearState q.2))).get? i
      = some (x.1, clearState x.2) := by
    rw [List.get?_map, hx]
    rfl
  obtain ⟨y, hy, hxy⟩ := pairsLoop_rel R hR1 hR2 hrefl htrans _ i (x.1, clearState x.2) hmap
  exact ⟨y, hy, htrans _ _ _ (hclear x) hxy⟩

theorem pairStep_frame (a b : Body) :
    ((pairStep a b).1.1 = a.1 ∧ (pairStep a b).1.2.mass = a.2.mass
        ∧ (pairStep a b).1.2.velocity = a.2.velocity
        ∧ (pairStep a b).1.2.old_position = a.2.old_position
        ∧ (pairStep a b).1.2.old_velocity = a.2.old_velocity
        ∧ (pairStep a b).1.2.old_state = a.2.old_state)
      ∧ ((pairStep a b).2.1 = b.1 ∧ (pairStep a b).2.2.mass = b.2.mass
        ∧ (pairStep a b).2.2.velocity = b.2.velocity
        ∧ (pairStep a b).2.2.old_position = b.2.old_position
        ∧ (pairStep a b).2.2.old_velocity = b.2.old_velocity
        ∧ (pairStep a b).2.2.old_state = b.2.old_state) := by
  unfold pairStep
  by_cases hm : a.2.mass = 0 ∧ b.2.mass = 0
  · simp [hm]
  · rw [if_neg hm]
    rcases hp : penetration_depth a.1 a.2.position b.1 b.2.position with _ | p
    · simp
    · dsimp only
      split_ifs <;> simp

theorem pairStep_static (a b : Body) :
    ((pairStep a b).1.2.mass = a.2.mass
        ∧ (a.2.mass = 0 → (pairStep a b).1.2.position = a.2.position))
      ∧ ((pairStep a b).2.2.mass = b.2.mass
        ∧ (b.2.mass = 0 → (pairStep a b).2.2.position = b.2.position)) := by
  unfold pairStep
  by_cases hm : a.2.mass = 0 ∧ b.2.mass = 0
  · simp [hm]
  · rw [if_neg hm]
    rcases hp : penetration_depth a.1 a.2.position b.1 b.2.position with _ | p
    · simp
    · dsimp only
      split_ifs <;>
        refine ⟨⟨by simp, fun h => ?_⟩, ⟨by simp, fun h => ?_⟩⟩ <;>
        · simp [h]

/-- C7: in every collision-resolution pass, a body of mass 0 keeps its
position, and a candidate pair in which both bodies have mass 0 is skipped
entirely: pairStep returns both bodies unchanged. -/
theorem collisions_static_bodies :
    (∀ (bodies : List Body) (i : ℕ) (x y : Body),
        bodies.get? i = some x → x.2.mass = 0 → (collisions bodies).get? i = some y →
        y.2.position = x.2.position)
      ∧ (∀ a b : Body, a.2.mass = 0 → b.2.mass = 0 → pairStep a b = (a, b)) := by
  constructor
  · intro bodies i x y hx hm hy
    obtain ⟨z, hz, hr⟩ := collisions_rel
      (fun u v => u.2.mass = v.2.mass ∧ (u.2.mass = 0 → v.2.position = u.2.position))
      (fun a b => ⟨((pairStep_static a b).1.1).symm, (pairStep_static a b).1.2⟩)
      (fun a b => ⟨((pairStep_static a b).2.1).symm, (pairStep_static a b).2.2⟩)
      (fun u => ⟨rfl, fun _ => rfl⟩)
      (fun u v w huv hvw => ⟨huv.1.trans hvw.1,
        fun h0 => (hvw.2 (huv.1 ▸ h0)).trans (huv.2 h0)⟩)
      (fun q => ⟨rfl, fun _ => rfl⟩)
      bodies i x hx
    rw [hy] at hz
    injection hz with hz
    subst hz
    exact hr.2 hm
  · intro a b ha hb
    simp [pairStep, ha, hb]

/-- C8: the collision-resolution pass mutates only positions and
contact-state flags: for every body, its box, mass, velocity and the
previous-tick shadow copies are unchanged by the resolver. -/
theorem collisions_frame :
    ∀ (bodies : List Body) (i : ℕ) (x y : Body),
      bodies.get? i = some x → (collisions bodies).get? i = some y →
      y.1 = x.1 ∧ y.2.mass = x.2.mass ∧ y.2.velocity = x.2.velocity
        ∧ y.2.old_position = x.2.old_position ∧ y.2.old_velocity = x.2.old_velocity
        ∧ y.2.old_state = x.2.old_state := by
  intro bodies i x y hx hy
  obtain ⟨z, hz, hr⟩ := collisions_rel
    (fun u v => v.1 = u.1 ∧ v.2.mass = u.2.mass ∧ v.2.velocity = u.2.velocity
      ∧ v.2.old_position = u.2.old_position ∧ v.2.old_velocity = u.2.old_velocity
      ∧ v.2.old_state = u.2.old_state)
    (fun a b => ⟨(pairStep_frame a b).1.1, (pairStep_frame a b).1.2.1,
      (pairStep_frame a b).1.2.2.1, (pairStep_frame a b).1.2.2.2.1,
      (pairStep_frame a b).1.2.2.2.2.1, (pairStep_frame a b).1.2.2.2.2.2⟩)
    (fun a b => ⟨(pairStep_frame a b).2.1, (pairStep_frame a b).2.2.1,
      (pairStep_frame a b).2.2.2.1, (pairStep_frame a b).2.2.2.2.1,
      (pairStep_frame a b).2.2.2.2.2.1, (pairStep_frame a b).2.2.2.2.2.2⟩)
    (fun u => ⟨rfl, rfl, rfl, rfl, rfl, rfl⟩)
    (fun u v w huv hvw => ⟨hvw.1.trans huv.1, hvw.2.1.trans huv.2.1,
      hvw.2.2.1.trans huv.2.2.1, hvw.2.2.2.1.trans huv.2.2.2.1,
      hvw.2.2.2.2.1.trans huv.2.2.2.2.1, hvw.2.2.2.2.2.trans huv.2.2.2.2.2⟩)
    (fun q => ⟨rfl, rfl, rfl, rfl, rfl, rfl⟩)
    bodies i x hx
  rw [hy] at hz
  injection hz with hz
  subst hz
  exact hr

/-- C2 amended, in general form: when the pair is not two static bodies,
the narrow phase reports penetration p, and the X axis has the smaller
absolute penetration, body A's X position moves by p.x times A's own mass
fraction and body B's by minus p.x times B's own mass fraction; the Y
positions are unchanged. -/
theorem pairStep_mass_ratio (a b : Body) (p : V2)
    (hm : ¬ (a.2.mass = 0 ∧ b.2.mass = 0))
    (hp : penetration_depth a.1 a.2.position b.1 b.2.position = some p)
    (hx : |p.x| < |p.y|) :
    (pairStep a b).1.2.position.x = a.2.position.x + p.x * (a.2.mass / (a.2.mass + b.2.mass))
      ∧ (pairStep a b).2.2.position.x
        = b.2.position.x - p.x * (b.2.mass / (a.2.mass + b.2.mass))
      ∧ (pairStep a b).1.2.position.y = a.2.position.y
      ∧ (pairStep a b).2.2.position.y = b.2.position.y := by
  unfold pairStep
  rw [if_neg hm, hp]
  dsimp only
  rw [if_pos hx]
  by_cases hs : p.x ≥ 0 <;> simp [hs]

set_option maxHeartbeats 2000000 in
/-- C2 is false as stated: with masses 10 and 30 and an 8-unit X
penetration resolved on X, one pass displaces A by 2 units (not
8 * 30/40 = 6) and B by 6 units (not 8 * 10/40 = 2): each body moves by
its own mass fraction, not the other body's. -/
theorem c2_mass_ratio_counterexample :
    collisions [c2a, c2b] = [c2aOut, c2bOut]
      ∧ c2aOut.2.position.x - c2a.2.position.x = -2
      ∧ c2bOut.2.position.x - c2b.2.position.x = 6
      ∧ ¬ (|(-2 : ℚ)| = 8 * (30 / 40))
      ∧ ¬ (|(6 : ℚ)| = 8 * (10 / 40)) := by
  refine ⟨?_, ?_, ?_, ?_, ?_⟩
  · norm_num [collisions, pairsLoop, resolveAgainst, pairStep, clearState,
      penetration_depth, collides, c2a, c2b, c2aOut, c2bOut, zeroState]
  · norm_num [c2a, c2aOut]
  · norm_num [c2b, c2bOut]
  · norm_num
  · norm_num

/-- Witness for the amended C2 at the 10/30 scenario: the theorem applied
to the concrete pair gives displacement p.x * m/total on X for each body. -/
theorem pairStep_mass_ratio_witness :
    (pairStep c2a c2b).1.2.position.x
        = c2a.2.position.x + (-8) * (c2a.2.mass / (c2a.2.mass + c2b.2.mass))
      ∧ (pairStep c2a c2b).2.2.position.x
        = c2b.2.position.x - (-8) * (c2b.2.mass / (c2a.2.mass + c2b.2.mass))
      ∧ (pairStep c2a c2b).1.2.position.y = c2a.2.position.y
      ∧ (pairStep c2a c2b).2.2.position.y = c2b.2.position.y :=
  pairStep_mass_ratio c2a c2b ⟨-8, -20⟩
    (by norm_num [c2a, c2b])
    (by norm_num [penetration_depth, collides, c2a, c2b])
    (by norm_num)

set_option maxHeartbeats 2000000 in
theorem c7_collisions_eval : collisions [c7static, c7dyn] = [c7staticOut, c7dynOut] := by
  norm_num [collisions, pairsLoop, resolveAgainst, pairStep, clearState,
    penetration_depth, collides, c7static, c7dyn, c7staticOut, c7dynOut, zeroState]

/-- Witness for C7: at the concrete pass, the static body's position is
unchanged, and a pair of two static bodies is returned unchanged. -/
theorem collisions_static_bodies_witness :
    c7staticOut.2.position = c7static.2.position ∧ pairStep c7static c7static
      = (c7static, c7static) :=
  ⟨collisions_static_bodies.1 [c7static, c7dyn] 0 c7static c7staticOut rfl
      (by norm_num [c7static]) (by rw [c7_collisions_eval]; rfl),
    collisions_static_bodies.2 c7static c7static (by norm_num [c7static])
      (by norm_num [c7static])⟩

/-- Witness for C8: at the concrete pass, the massive body keeps its box,
mass, velocity and previous-tick shadow state. -/
theorem collisions_frame_witness :
    c7dynOut.1 = c7dyn.1 ∧ c7dynOut.2.mass = c7dyn.2.mass
      ∧ c7dynOut.2.velocity = c7dyn.2.velocity
      ∧ c7dynOut.2.old_position = c7dyn.2.old_position
      ∧ c7dynOut.2.old_velocity = c7dyn.2.old_velocity
      ∧ c7dynOut.2.old_state = c7dyn.2.old_state :=
  collisions_frame [c7static, c7dyn] 1 c7dyn c7dynOut rfl (by rw [c7_collisions_eval]; rfl)

theorem lenR_nonneg (v : VR) : 0 ≤ lenR v := Real.sqrt_nonneg _

theorem lenR_smulR (c : ℝ) (v : VR) : lenR (smulR c v) = |c| * lenR v := by
  unfold lenR smulR
  dsimp only
  rw [show (c * v.1) ^ 2 + (c * v.2) ^ 2 = c ^ 2 * (v.1 ^ 2 + v.2 ^ 2) by ring,
    Real.sqrt_mul (sq_nonneg c), Real.sqrt_sq_eq_abs]

theorem normalizeR_eq_smulR (v : VR) : normalizeR v = smulR (lenR v)⁻¹ v := by
  unfold normalizeR smulR
  simp [div_eq_inv_mul]

theorem lenR_normalizeR {v : VR} (h : 0 < lenR v) : lenR (normalizeR v) = 1 := by
  rw [normalizeR_eq_smulR, lenR_smulR, abs_inv, abs_of_pos h, inv_mul_cancel₀ (ne_of_gt h)]

theorem boidClamp_len (p : BoidParameters)
    (h1 : 0 < p.min_velocity) (h2 : p.min_velocity ≤ p.max_velocity) (v : VR) :
    lenR (boidClamp p v) = 0
      ∨ (p.min_velocity ≤ lenR (boidClamp p v) ∧ lenR (boidClamp p v) ≤ p.max_velocity) := by
  unfold boidClamp
  dsimp only
  by_cases h0 : lenR v > 0
  · rw [if_pos h0]
    by_cases hmax : lenR v > p.max_velocity
    · rw [if_pos hmax]
      right
      have hl : lenR (smulR p.max_velocity (normalizeR v)) = p.max_velocity := by
        rw [lenR_smulR, lenR_normalizeR h0, mul_one, abs_of_pos (by linarith)]
      rw [hl]
      exact ⟨h2, le_refl _⟩
    · rw [if_neg hmax]
      by_cases hmin : lenR v < p.min_velocity
      · rw [if_pos hmin]
        right
        have hl : lenR (smulR p.min_velocity (normalizeR v)) = p.min_velocity := by
          rw [lenR_smulR, lenR_normalizeR h0, mul_one, abs_of_pos h1]
        rw [hl]
        exact ⟨le_refl _, h2⟩
      · rw [if_neg hmin]
        exact Or.inr ⟨not_lt.mp hmin, not_lt.mp hmax⟩
  · rw [if_neg h0]
    exact Or.inl (le_antisymm (not_lt.mp h0) (lenR_nonneg v))

/-- C6: for every flocking input, when 0 < min_velocity and
min_velocity is at most max_velocity, the magnitude of the steering
vector after the clamp and before jitter is either exactly 0 or lies in
the interval from min_velocity to max_velocity. -/
theorem boid_speed_clamp (p : BoidParameters) (selfId : ℕ) (aPos aVel : VR)
    (others : List (ℕ × VR × VR)) (windowHalf : VR) (playerPos : VR)
    (h1 : 0 < p.min_velocity) (h2 : p.min_velocity ≤ p.max_velocity) :
    lenR (boidSteerPreJitter p selfId aPos aVel others windowHalf playerPos) = 0
      ∨ (p.min_velocity
            ≤ lenR (boidSteerPreJitter p selfId aPos aVel others windowHalf playerPos)
          ∧ lenR (boidSteerPreJitter p selfId aPos aVel others windowHalf playerPos)
            ≤ p.max_velocity) :=
  boidClamp_len p h1 h2 (boidAccumulate p selfId aPos aVel others windowHalf playerPos)

theorem boidFold_spec (p : BoidParameters) (selfId : ℕ) (aPos : VR) :
    ∀ (others : List (ℕ × VR × VR)) (acc : VR × VR × ℝ × VR),
      (others.foldl (boidFoldStep p selfId aPos) acc).1
          = acc.1 + neighborPositionSum selfId others
        ∧ (others.foldl (boidFoldStep p selfId aPos) acc).2.1
          = acc.2.1 + neighborVelocitySum selfId others
        ∧ (others.foldl (boidFoldStep p selfId aPos) acc).2.2.1
          = acc.2.2.1 + (neighborCount selfId others : ℝ) := by
  intro others
  induction others with
  | nil =>
    intro acc
    simp [neighborPositionSum, neighborVelocitySum, neighborCount]
  | cons bo rest ih =>
    intro acc
    simp only [List.foldl_cons]
    by_cases h : bo.1 = selfId
    · rw [show boidFoldStep p selfId aPos acc bo = acc from by simp [boidFoldStep, h]]
      have hns : (bo.1 != selfId) = false := by simp [h]
      obtain ⟨h1, h2, h3⟩ := ih acc
      exact ⟨by simp [neighborPositionSum, List.filter_cons, hns] at h1 ⊢; exact h1,
        by simp [neighborVelocitySum, List.filter_cons, hns] at h2 ⊢; exact h2,
        by simp [neighborCount, List.filter_cons, hns] at h3 ⊢; exact h3⟩
    · have hstep : boidFoldStep p selfId aPos acc bo
          = (acc.1 + bo.2.1, acc.2.1 + bo.2.2, acc.2.2.1 + 1,
              if distR aPos bo.2.1 > 0 then
                acc.2.2.2
                  + smulR (p.avoid_factor / distR aPos bo.2.1) (normalizeR (aPos - bo.2.1))
              else acc.2.2.2) := by
        simp [boidFoldStep, h]
      rw [hstep]
      have hns : (bo.1 != selfId) = true := by simp [h]
      obtain ⟨h1, h2, h3⟩ := ih (acc.1 + bo.2.1, acc.2.1 + bo.2.2, acc.2.2.1 + 1,
        if distR aPos bo.2.1 > 0 then
          acc.2.2.2 + smulR (p.avoid_factor / distR aPos bo.2.1) (normalizeR (aPos - bo.2.1))
        else acc.2.2.2)
      refine ⟨?_, ?_, ?_⟩
      · rw [h1]
        simp only [neighborPositionSum, List.filter_cons, hns, if_true, List.map_cons,
          List.sum_cons]
        rw [add_assoc]
      · rw [h2]
        simp only [neighborVelocitySum, List.filter_cons, hns, if_true, List.map_cons,
          List.sum_cons]
        rw [add_assoc]
      · rw [h3]
        simp only [neighborCount, List.filter_cons, hns, if_true, List.length_cons]
        push_cast
        ring

theorem boid_alignment_aux (p : BoidParameters) (selfId : ℕ) (aPos aVel : VR)
    (others : List (ℕ × VR × VR)) (windowHalf : VR) (playerPos : VR)
    (hn : 0 < neighborCount selfId others) :
    boidAccumulate p selfId aPos aVel others windowHalf playerPos
      = boidAccumulate { p with matching_factor := 0 } selfId aPos aVel others
          windowHalf playerPos
        + smulR p.matching_factor
            (smulR p.max_velocity
                (normalizeR (sdiv (neighborVelocitySum selfId others - aVel)
                  (neighborCount selfId others : ℝ)))
              - aVel) := by
  have hstep : boidFoldStep { p with matching_factor := 0 } selfId aPos
      = boidFoldStep p selfId aPos := rfl
  unfold boidAccumulate
  rw [hstep]
  dsimp only
  obtain ⟨h1, h2, h3⟩ := boidFold_spec p selfId aPos others
    (((0 : ℝ), (0 : ℝ)), ((0 : ℝ), (0 : ℝ)), (0 : ℝ), ((0 : ℝ), (0 : ℝ)))
  rw [h2, h3]
  simp only [zero_add]
  have hamt : (0 : ℝ) < (neighborCount selfId others : ℝ) := by exact_mod_cast hn
  rw [if_pos hamt, if_pos hamt]
  simp [smulR, Prod.ext_iff]

/-- C5 amended: with at least one non-self queried neighbor, the
alignment stage adds matching_factor times (max_velocity times the
normalized perceived velocity, minus the boid's own velocity), where the
perceived velocity before normalization is (sum of neighbor velocities
minus own velocity) divided by the neighbor count — the code normalizes
the perceived velocity and rescales it to max_velocity before comparing
with the boid's velocity. -/
theorem boid_alignment_contribution (p : BoidParameters) (selfId : ℕ) (aPos aVel : VR)
    (others : List (ℕ × VR × VR)) (windowHalf : VR) (playerPos : VR)
    (hn : 0 < neighborCount selfId others) :
    boidAccumulate p selfId aPos aVel others windowHalf playerPos
      = boidAccumulate { p with matching_factor := 0 } selfId aPos aVel others
          windowHalf playerPos
        + smulR p.matching_factor
            (smulR p.max_velocity
                (normalizeR (sdiv (neighborVelocitySum selfId others - aVel)
                  (neighborCount selfId others : ℝ)))
              - aVel) :=
  boid_alignment_aux p selfId aPos aVel others windowHalf playerPos hn

theorem c5_sum_eval : neighborVelocitySum 0 c5others = ((3 : ℝ), (4 : ℝ)) := by
  simp [neighborVelocitySum, c5others]

theorem c5_count_eval : neighborCount 0 c5others = 1 := by
  simp [neighborCount, c5others]

theorem sqrt_twentyfive : Real.sqrt 25 = 5 := by
  rw [show (25 : ℝ) = 5 ^ 2 by norm_num]
  exact Real.sqrt_sq (by norm_num)

/-- C5 is false as stated: with the spawn parameters, a single neighbor at
(3,4) with velocity (3,4) and a boid at rest at the origin, the value the
code adds at the alignment stage is not (perceived_velocity - velocity)
times matching_factor with perceived_velocity = (sum - velocity) / count:
the code first normalizes the perceived velocity and rescales it to
max_velocity, yielding (36,48) instead of (0.3,0.4). -/
theorem c5_alignment_counterexample :
    ¬ (boidAccumulate c5p 0 c5aPos c5aVel c5others c5win c5player
        = boidAccumulate { c5p with matching_factor := 0 } 0 c5aPos c5aVel c5others
            c5win c5player
          + smulR c5p.matching_factor
              (sdiv (neighborVelocitySum 0 c5others - c5aVel) (neighborCount 0 c5others : ℝ)
                - c5aVel)) := by
  have hn : 0 < neighborCount 0 c5others := by rw [c5_count_eval]; norm_num
  have heq := boid_alignment_aux c5p 0 c5aPos c5aVel c5others c5win c5player hn
  intro h
  rw [heq] at h
  have hterm := add_left_cancel h
  rw [c5_sum_eval, c5_count_eval] at hterm
  have h1 := congrArg Prod.fst hterm
  have hlen34 : lenR ((3 : ℝ), (4 : ℝ)) = 5 := by
    unfold lenR
    norm_num
    exact sqrt_twentyfive
  simp only [smulR, sdiv, normalizeR, c5p, c5aVel, Prod.mk_sub_mk, Nat.cast_one] at h1
  norm_num at h1
  rw [hlen34] at h1
  norm_num at h1

/-- Witness for the amended C5 at the counterexample scenario: the theorem
applied to the concrete neighbor list. -/
theorem boid_alignment_contribution_witness :
    boidAccumulate c5p 0 c5aPos c5aVel c5others c5win c5player
      = boidAccumulate { c5p with matching_factor := 0 } 0 c5aPos c5aVel c5others
          c5win c5player
        + smulR c5p.matching_factor
            (smulR c5p.max_velocity
                (normalizeR (sdiv (neighborVelocitySum 0 c5others - c5aVel)
                  (neighborCount 0 c5others : ℝ)))
              - c5aVel) :=
  boid_alignment_contribution c5p 0 c5aPos c5aVel c5others c5win c5player
    (by rw [c5_count_eval]; norm_num)

/-- Witness for C6 at an isolated boid: no neighbors, far from edges,
predator avoidance off, under the spawn parameters. -/
theorem boid_speed_clamp_witness :
    lenR (boidSteerPreJitter c5p 0 (0, 0) (0, 0) [] (10000, 10000) (1000, 1000)) = 0
      ∨ (c5p.min_velocity
            ≤ lenR (boidSteerPreJitter c5p 0 (0, 0) (0, 0) [] (10000, 10000) (1000, 1000))
          ∧ lenR (boidSteerPreJitter c5p 0 (0, 0) (0, 0) [] (10000, 10000) (1000, 1000))
            ≤ c5p.max_velocity) :=
  boid_speed_clamp c5p 0 (0, 0) (0, 0) [] (10000, 10000) (1000, 1000)
    (by norm_num [c5p]) (by norm_num [c5p])

end Platformer
